import Mathlib

/-!
Verification of the Δ-Nets interaction-net engine
(`src/visualizer/lib/methods/deltanets.ts`).

The TypeScript engine works on a mutable array of `Node` objects whose
`ports` arrays hold `{node, port}` references.  We embed this state as an
arena: every node object is identified by a natural number, a `Graph` keeps
the live array (`nodes`, in source order), a total store `data` from ids to
node records (node objects survive removal from the array, exactly as the
JS objects do while thunks still reference them), and a `fresh` counter used
to allocate ids for nodes created by `graph.push` / `graph.unshift`.

A JS array write `xs[i] = v` beyond the current length pads the array
(holes read back as `undefined`); the embedding pads with the dummy port
`(0, 0)` and out-of-range reads use `List.getD` with the same dummy.  All
reachable reads done by the engine are in range, so the dummy is never
observable there.

Replicator labels are strings of the shape `"<level>"` or `"<level>*"`
produced by `formatRepLabel` and consumed by `parseRepLabel`; we embed the
label as structured data (`Label.rep level status`), with `parseRepLabel`
and `formatRepLabel` the evident conversions, and plain string labels
(`"era"`, `"root"`, `"@"`, `"λx"`, variable names) as `Label.name`.
-/

namespace Deltanets

/-- The node type tag (`NodeType` in the source). -/
inductive NodeType where
  | abs
  | app
  | repIn
  | repOut
  | era
  | var
  | root
deriving DecidableEq, Repr

/-- A port reference `{node, port}`: node id and port index. -/
abbrev Port := Nat × Nat

/-- The status of a replicator (`RepStatus` in the source). -/
inductive RepStatus where
  | unpaired
  | unknown
deriving DecidableEq, Repr

/-- A node label: a plain string, or a replicator label `"<level>"` /
`"<level>*"` parsed into its level and status. -/
inductive Label where
  | name (s : String)
  | rep (level : Int) (status : RepStatus)
deriving DecidableEq, Repr

/-- `parseRepLabel`: a replicator label yields its level and status; on a
plain string label the source would `parseInt` arbitrary text, which never
happens on reachable data, so we return level 0, unpaired. -/
def parseRepLabel : Label → Int × RepStatus
  | .rep level status => (level, status)
  | .name _ => (0, .unpaired)

/-- `formatRepLabel`. -/
def formatRepLabel (level : Int) (status : RepStatus) : Label :=
  .rep level status

/-- One node object: type tag, ports array, label, level deltas
(replicators only; `[]` embeds the absent field). -/
structure NodeRec where
  type : NodeType
  ports : List Port := []
  label : Label := .name ""
  levelDeltas : List Int := []
deriving DecidableEq, Repr

/-- The dummy node record read for ids that were never allocated. -/
def emptyNode : NodeRec := { type := .era }

/-- The graph state: live node ids in array order, the object store, and
the allocator for fresh ids. -/
structure Graph where
  nodes : List Nat
  data : Nat → NodeRec
  fresh : Nat

/-- Replace the stored record of one node id. -/
def setData (g : Graph) (n : Nat) (r : NodeRec) : Graph :=
  { g with data := fun m => if m = n then r else g.data m }

/-- JS array write `ports[i] = p`, padding holes with the dummy port. -/
def setPort (r : NodeRec) (i : Nat) (p : Port) : NodeRec :=
  { r with ports := (r.ports ++ List.replicate (i + 1 - r.ports.length) ((0, 0) : Port)).set i p }

/-- Read `ports[i]` of a node id (dummy `(0,0)` when out of range). -/
def getP (g : Graph) (n i : Nat) : Port :=
  (g.data n).ports.getD i (0, 0)

/-- `reciprocal(nodePort)` = `nodePort.node.ports[nodePort.port]`. -/
def reciprocal (g : Graph) (p : Port) : Port :=
  getP g p.1 p.2

/-- `link(a, b)`: `a.node.ports[a.port] = b` then `b.node.ports[b.port] = a`. -/
def link (g : Graph) (a b : Port) : Graph :=
  let g1 := setData g a.1 (setPort (g.data a.1) a.2 b)
  setData g1 b.1 (setPort (g1.data b.1) b.2 a)

/-- `graph.push(node)` with a freshly allocated id. -/
def pushNode (g : Graph) (r : NodeRec) : Graph :=
  { nodes := g.nodes ++ [g.fresh]
    data := fun m => if m = g.fresh then r else g.data m
    fresh := g.fresh + 1 }

/-- `graph.unshift(node)` with a freshly allocated id. -/
def unshiftNode (g : Graph) (r : NodeRec) : Graph :=
  { nodes := g.fresh :: g.nodes
    data := fun m => if m = g.fresh then r else g.data m
    fresh := g.fresh + 1 }

/-- `removeFromArrayIf(graph, n => n === node)`. -/
def removeNode (g : Graph) (n : Nat) : Graph :=
  { g with nodes := g.nodes.filter (fun m => m ≠ n) }

/-- The loop of `reduceAnnihilate`: for `i = 1 .. len-1`,
`link(node.ports[i], other.ports[i])`, reading the live arrays. -/
def annihilateLoop (node other : Nat) : Graph → List Nat → Graph
  | g, [] => g
  | g, i :: rest => annihilateLoop node other (link g (getP g node i) (getP g other i)) rest

/-- `reduceAnnihilate(node, graph)`; `none` embeds a thrown error. -/
def reduceAnnihilate (node : Nat) (g : Graph) : Option Graph :=
  let other := (getP g node 0).1
  if (getP g other 0).1 ≠ node then none
  else if (g.data node).ports.length ≠ (g.data other).ports.length then none
  else
    let g1 := annihilateLoop node other g (List.range' 1 ((g.data node).ports.length - 1))
    some { g1 with nodes := g1.nodes.filter (fun m => m ≠ node && m ≠ other) }

/-- The loop of `reduceErase`: for each auxiliary port create a fresh
eraser (`{ type: "era", ports: [] }`, pushed) and link it to the far end. -/
def eraseLoop (node : Nat) : Graph → List Nat → Graph
  | g, [] => g
  | g, i :: rest =>
    let e := g.fresh
    let g1 := pushNode g { type := .era }
    eraseLoop node (link g1 (e, 0) (getP g1 node i)) rest

/-- `reduceErase(node, graph)`. -/
def reduceErase (node : Nat) (g : Graph) : Option Graph :=
  let eraser := (getP g node 0).1
  if (getP g eraser 0).1 ≠ node then none
  else if (g.data eraser).type ≠ .era then none
  else
    let g1 := eraseLoop node g (List.range' 1 ((g.data node).ports.length - 1))
    some { g1 with nodes := g1.nodes.filter (fun m => m ≠ node && m ≠ eraser) }

/-- One clone-creation loop of `reduceCommute`: for each auxiliary port `i`
of `src`, clone `tmpl` (`{...tmpl, levelDeltas: copy, ports: []}`, unshifted)
and `link` its principal port to `src.ports[i]` (live read).  Returns the
clone ids in creation order. -/
def commuteCloneLoop (src tmpl : Nat) : Graph → List Nat → Graph × List Nat
  | g, [] => (g, [])
  | g, i :: rest =>
    let c := g.fresh
    let t := g.data tmpl
    let g1 := unshiftNode g { type := t.type, ports := [], label := t.label, levelDeltas := t.levelDeltas }
    let g2 := link g1 (c, 0) (getP g1 src i)
    let (g3, cs) := commuteCloneLoop src tmpl g2 rest
    (g3, c :: cs)

/-- `reduceCommute(node, graph)`, returning the updated graph and the clone
id lists `(nodeClones, otherClones)`. -/
def reduceCommute (node : Nat) (g : Graph) : Option (Graph × List Nat × List Nat) :=
  let other := (getP g node 0).1
  if (getP g other 0).1 ≠ node then none
  else
    let (g1, otherClones) := commuteCloneLoop node other g (List.range' 1 ((g.data node).ports.length - 1))
    let (g2, nodeClones) := commuteCloneLoop other node g1 (List.range' 1 ((g.data other).ports.length - 1))
    let g3 := (List.range nodeClones.length).foldl (fun h i =>
      (List.range otherClones.length).foldl (fun h' j =>
        link h' (nodeClones.getD i 0, j + 1) (otherClones.getD j 0, i + 1)) h) g2
    some ({ g3 with nodes := g3.nodes.filter (fun m => m ≠ node && m ≠ other) },
      nodeClones, otherClones)

/-- The body of the replicator-merge redex thunk (`getRedexes`, merge
branch).  `secondPort` (`secondReplicatorPort`) and `delta`
(`levelDeltaBetween`) are captured at scan time; everything else reads the
live graph.  Splices `second`'s auxiliary ports and offset level deltas
into `first` at the connecting port, sorts the auxiliary ports by level
delta (JS `sort` is stable; `List.insertionSort` likewise), reassigns and
relinks all of `first`'s ports, and removes `second`.
(`isToBeMerged` is a rendering-only flag and is not part of the state.)
`mergePorts1` is the ports array of `first` right after the `splice`: the
connecting port at `secondPort` replaced by `second`'s auxiliary ports. -/
def mergePorts1 (first second secondPort : Nat) (g : Graph) : List Port :=
  (g.data first).ports.take secondPort ++ (g.data second).ports.drop 1 ++
    (g.data first).ports.drop (secondPort + 1)

/-- The levelDeltas array of `first` right after the two `splice` calls:
one delta removed at index `secondPort - 1`, `second`'s deltas each offset
by `delta` (`levelDeltaBetween`) inserted in its place. -/
def mergeLds1 (first second secondPort : Nat) (delta : Int) (g : Graph) : List Int :=
  (g.data first).levelDeltas.take (secondPort - 1) ++
    (g.data second).levelDeltas.map (· + delta) ++
    (g.data first).levelDeltas.drop secondPort

/-- The zip of `first`'s auxiliary ports with its level deltas after the
splices, sorted by ascending level delta.  JS `Array.sort` is a stable
sort; `List.insertionSort` is a stable sort with the same comparator
semantics and reduces structurally. -/
def mergeSorted (first second secondPort : Nat) (delta : Int) (g : Graph) : List (Port × Int) :=
  List.insertionSort (fun x y => x.2 ≤ y.2)
    (((mergePorts1 first second secondPort g).drop 1).zip
      (mergeLds1 first second secondPort delta g))

/-- The ports array assigned to `first`: old principal port, then the
sorted auxiliary ports. -/
def mergeNewPorts (first second secondPort : Nat) (delta : Int) (g : Graph) : List Port :=
  (mergePorts1 first second secondPort g).getD 0 (0, 0) ::
    (mergeSorted first second secondPort delta g).map Prod.fst

def reduceMerge (first second secondPort : Nat) (delta : Int) (g : Graph) : Graph :=
  let newPorts := mergeNewPorts first second secondPort delta g
  let g1 := setData g first
    { g.data first with
      ports := newPorts
      levelDeltas := (mergeSorted first second secondPort delta g).map Prod.snd }
  let g2 := (List.range newPorts.length).foldl (fun h i => link h (getP h first i) (first, i)) g1
  removeNode g2 second

/-- The back-rotation applied to each application clone at the end of
`reduceAuxFan`: snapshot the clone's ports, then
`link(clone.0, orig[2]); link(clone.1, orig[0]); link(clone.2, orig[1])`. -/
def auxFanUnrotate (g : Graph) (clone : Nat) : Graph :=
  let origPorts := (g.data clone).ports
  let g1 := link g (clone, 0) (origPorts.getD 2 (0, 0))
  let g2 := link g1 (clone, 1) (origPorts.getD 0 (0, 0))
  link g2 (clone, 2) (origPorts.getD 1 (0, 0))

/-- `reduceAuxFan(node, graph, relativeLevel)`: interaction of a fan
(application) with the node at its first auxiliary port.  The eraser case
replaces the fan by two fresh erasers; the replicator case rotates the
fan's ports so the replicator faces the principal port, runs the general
commutation, then rotates every fan clone back.  Any other neighbour type
falls through with no effect. -/
def reduceAuxFan (node : Nat) (g : Graph) (relativeLevel : Bool) : Option Graph :=
  let firstAuxNode := (getP g node 1).1
  if (g.data firstAuxNode).type = .era then
    let e0 := g.fresh
    let g1 := pushNode g { type := .era }
    let g2 := link g1 (e0, 0) (getP g1 node 0)
    let e1 := g2.fresh
    let g3 := pushNode g2 { type := .era }
    let g4 := link g3 (e1, 0) (getP g3 node 2)
    some { g4 with nodes := g4.nodes.filter (fun m => m ≠ node && m ≠ firstAuxNode) }
  else if (g.data firstAuxNode).type = .repIn ∨ (g.data firstAuxNode).type = .repOut then
    let origPorts := (g.data node).ports
    let g1 := link g (node, 0) (origPorts.getD 1 (0, 0))
    let g2 := link g1 (node, 1) (origPorts.getD 2 (0, 0))
    let g3 := link g2 (node, 2) (origPorts.getD 0 (0, 0))
    match reduceCommute node g3 with
    | none => none
    | some (g4, nodeClones, otherClones) =>
      let step1 : Option Graph :=
        if relativeLevel then
          match otherClones.get? 1, otherClones.get? 0 with
          | some oc1, some oc0 =>
            let repLevel := (parseRepLabel (g4.data oc1).label).1
            some (setData g4 oc0 { g4.data oc0 with label := formatRepLabel (repLevel + 1) .unknown })
          | _, _ => none
          else some g4
      match step1 with
      | none => none
      | some g5 => some (nodeClones.foldl auxFanUnrotate g5)
  else
    some g

/-- The reduction discipline (`SystemType` in the source). -/
inductive SystemType where
  | linear
  | affine
  | relevant
  | full
deriving DecidableEq, Repr

/-- A redex: the two nodes of an active pair, its optimality flag, and its
rewrite thunk (`none` embeds a thrown error, `some g` a normal return). -/
structure Redex where
  a : Nat
  b : Nat
  optimal : Bool
  reduce : Graph → Option Graph

/-- The scanner state: the redex list under construction and the log of
`console.error` messages. -/
structure ScanState where
  redexes : List Redex := []
  errors : List String := []

/-- Does redex `r` consist of the unordered node pair `a, b`? -/
def pairEq (a b : Nat) (r : Redex) : Bool :=
  (r.a == a && r.b == b) || (r.a == b && r.b == a)

/-- The stale-redex guard wrapped around every thunk by `createRedex`:
if either node has been removed from the live array the thunk returns
without touching the graph. -/
def guardReduce (a b : Nat) (inner : Graph → Option Graph) : Graph → Option Graph :=
  fun g =>
    if (g.nodes.find? (fun m => m == a)).isNone || (g.nodes.find? (fun m => m == b)).isNone then
      some g
    else inner g

/-- `createRedex(a, b, optimal, reduce)`: skip when the unordered pair is
already present (logging when the recorded optimality disagrees),
otherwise append the redex with its thunk behind the stale-redex guard. -/
def createRedex (st : ScanState) (a b : Nat) (optimal : Bool)
    (reduce : Graph → Option Graph) : ScanState :=
  match st.redexes.find? (pairEq a b) with
  | some r =>
    if r.optimal != optimal then
      { st with errors := st.errors ++ ["mismatching optimality for redex"] }
    else st
  | none =>
    { st with redexes := st.redexes ++
        [{ a := a, b := b, optimal := optimal, reduce := guardReduce a b reduce }] }

/-- `getRedex(a, b, redexes)`. -/
def getRedexFind (a b : Nat) (rs : List Redex) : Option Redex :=
  rs.find? (pairEq a b)

/-- Set the `optimal` flag of the redex holding the unordered pair `a, b`
(the source mutates the one object found by `getRedex`; pairs are unique in
the list, see `createRedex`). -/
def markOptimal (rs : List Redex) (a b : Nat) : List Redex :=
  rs.map (fun r => if pairEq a b r then { r with optimal := true } else r)

/-- `node.type.startsWith("rep")`. -/
def isRepType (t : NodeType) : Bool :=
  t == .repIn || t == .repOut

/-- The linear-system loop body of `getRedexes` (one graph node). -/
def processNodeLinear (g : Graph) (st : ScanState) (n : Nat) : ScanState :=
  let nd := g.data n
  let pp := nd.ports.getD 0 (0, 0)
  if pp.2 == 0 then
    let st1 := if nd.type == .era then
        { st with errors := st.errors ++ ["eraser in linear system"] } else st
    let st2 := if isRepType nd.type then
        { st1 with errors := st1.errors ++ ["rep in linear system"] } else st1
    let partner := pp.1
    let pt := (g.data partner).type
    if nd.type == .var || pt == .var || nd.type == .root || pt == .root then st2
    else
      let st3 := if (nd.type == .abs && pt != .app) || (nd.type == .app && pt != .abs) then
          { st2 with errors := st2.errors ++ ["non app-abs annihilation pair in linear system"] }
        else st2
      createRedex st3 n partner true (fun g' => reduceAnnihilate n g')
  else st

/-! The redex thunks of the non-linear scan, as named closures.  Each
captures node ids and scan-time constants (`level`, `top`, `bottom`, the
status flags, `secondReplicatorPort`, `levelDeltaBetween`) and reads
everything else from the live graph at invocation time, exactly as the
source arrow functions do.  Reads of `levelDeltas` entries use default 0
where the source only ever reads them in range. -/

/-- `() => reduceErase(node.ports[0].node, graph)` (an eraser meets
`node.ports[0].node`). -/
def eraseOtherThunk (n : Nat) : Graph → Option Graph :=
  fun g' => reduceErase (getP g' n 0).1 g'

/-- `() => reduceErase(node, graph)`. -/
def eraseNodeThunk (n : Nat) : Graph → Option Graph :=
  fun g' => reduceErase n g'

/-- `() => reduceAnnihilate(node, graph)`. -/
def annihilateNodeThunk (n : Nat) : Graph → Option Graph :=
  fun g' => reduceAnnihilate n g'

/-- The fan-replicator commutation thunk: commute at the replicator, then
relabel the two replicator clones and flip the second clone between fan-in
and fan-out. -/
def fanRepCommuteThunk (rep : Nat) (level : Int) (relativeLevel : Bool) :
    Graph → Option Graph :=
  fun g' =>
    match reduceCommute rep g' with
    | none => none
    | some (g2, nodeClones, _) =>
      match nodeClones.get? 0, nodeClones.get? 1 with
      | some c0, some c1 =>
        let h1 := setData g2 c0 { g2.data c0 with label := formatRepLabel level .unknown }
        let h2 := setData h1 c1
          { h1.data c1 with
            label := formatRepLabel (if relativeLevel then level + 1 else level) .unknown }
        some (setData h2 c1
          { h2.data c1 with type := if (h2.data c1).type == .repIn then .repOut else .repIn })
      | _, _ => none

/-- The unequal-level replicator-replicator commutation thunk: commute at
the bottom replicator `b`, then update the levels of the copies of the
deeper replicator by the level deltas of the shallower one (read live). -/
def repRepCommuteThunk (n b : Nat) (top bottom : Int) (topFlag bottomFlag : RepStatus) :
    Graph → Option Graph :=
  fun g' =>
    match reduceCommute b g' with
    | none => none
    | some (g2, nodeClones, otherClones) =>
      if top > bottom then
        some ((List.range otherClones.length).foldl (fun h i =>
          let c := otherClones.getD i 0
          setData h c { h.data c with
            label := formatRepLabel (top + ((h.data b).levelDeltas.getD i 0)) topFlag }) g2)
      else
        some ((List.range nodeClones.length).foldl (fun h i =>
          let c := nodeClones.getD i 0
          setData h c { h.data c with
            label := formatRepLabel (bottom + ((h.data n).levelDeltas.getD i 0)) bottomFlag }) g2)

/-- The replicator-merge thunk. -/
def mergeThunk (first second secondPort : Nat) (delta : Int) : Graph → Option Graph :=
  fun g' => some (reduceMerge first second secondPort delta g')

/-- `() => reduceAuxFan(node.ports[0].node, graph, relativeLevel)`. -/
def auxFanNodeThunk (n : Nat) (relativeLevel : Bool) : Graph → Option Graph :=
  fun g' => reduceAuxFan (getP g' n 0).1 g' relativeLevel

/-- The principal-to-principal chain of the non-linear scan (entered when
`node.ports[0].port === 0`). -/
def processPP (g : Graph) (relativeLevel : Bool) (st : ScanState) (n : Nat) : ScanState :=
  let nd := g.data n
  let partner := (nd.ports.getD 0 (0, 0)).1
  let pt := (g.data partner).type
  if nd.type == .var || pt == .var || nd.type == .root || pt == .root then st
  else if nd.type == .era then
    createRedex st n partner false (eraseOtherThunk n)
  else if pt == .era then
    createRedex st n partner false (eraseNodeThunk n)
  else if nd.type == .abs && pt == .app then
    createRedex st n partner false (annihilateNodeThunk n)
  else if isRepType nd.type && (pt == .abs || pt == .app) then
    let rep := if isRepType nd.type then n else partner
    createRedex st n partner false
      (fanRepCommuteThunk rep (parseRepLabel (g.data rep).label).1 relativeLevel)
  else if isRepType nd.type && isRepType pt then
    if (parseRepLabel nd.label).1 == (parseRepLabel (g.data partner).label).1 then
      createRedex st n partner false (annihilateNodeThunk partner)
    else
      createRedex st n partner false
        (repRepCommuteThunk n partner (parseRepLabel nd.label).1
          (parseRepLabel (g.data partner).label).1
          (parseRepLabel nd.label).2 (parseRepLabel (g.data partner).label).2)
  else st

/-- The replicator-merge branch of the non-linear scan (entered from an
auxiliary port of the first replicator, with the first replicator
unpaired). -/
def processMerge (g : Graph) (st : ScanState) (n : Nat) : ScanState :=
  let nd := g.data n
  let pp := nd.ports.getD 0 (0, 0)
  let firstReplicator := pp.1
  let secondReplicatorPort := pp.2
  let levelDeltaBetween := (g.data firstReplicator).levelDeltas.getD (secondReplicatorPort - 1) 0
  let secondUnpaired :=
    if (parseRepLabel nd.label).2 == .unpaired then true
    else
      let firstLevel := (parseRepLabel (g.data firstReplicator).label).1
      let secondLevel := (parseRepLabel nd.label).1
      let diff := secondLevel - firstLevel
      decide (0 ≤ diff) && decide (diff ≤ levelDeltaBetween)
  if secondUnpaired then
    createRedex st firstReplicator n false
      (mergeThunk firstReplicator n secondReplicatorPort levelDeltaBetween)
  else st

/-- The affine/relevant/full loop body of `getRedexes` (one graph node). -/
def processNodeFull (g : Graph) (systemType : SystemType) (relativeLevel : Bool)
    (st : ScanState) (n : Nat) : ScanState :=
  let nd := g.data n
  let st1 := if systemType == .relevant && nd.type == .era then
      { st with errors := st.errors ++ ["eraser in relevant system"] } else st
  let pp := nd.ports.getD 0 (0, 0)
  let partner := pp.1
  let pt := (g.data partner).type
  if pp.2 == 0 then
    processPP g relativeLevel st1 n
  else if isRepType nd.type && isRepType pt && (parseRepLabel (g.data partner).label).2 == .unpaired then
    processMerge g st1 n
  else if isRepType nd.type && pt == .app && pp.2 == 1 then
    createRedex st1 n partner false (auxFanNodeThunk n relativeLevel)
  else st1

/-- The state of the first (leftmost-outermost) traversal of `getRedexes`:
the `traversed` marks, the captured `firstAuxFanReplication` pair, and the
redex list being marked. -/
structure TravState where
  visited : List Nat := []
  firstAuxFan : Option (Nat × Nat) := none
  redexes : List Redex

/-- The `firstAuxFanReplication` capture at the head of `traverse`. -/
def travMarkFA (g : Graph) (st : TravState) (np : Port) : TravState :=
  if st.firstAuxFan == none && isRepType (g.data np.1).type &&
      (g.data (getP g np.1 0).1).type == .app && (getP g np.1 0).2 == 1 then
    match getRedexFind np.1 (getP g np.1 0).1 st.redexes with
    | some r => { st with firstAuxFan := some (r.a, r.b) }
    | none => st
  else st

/-- The child ports `traverse` recurses into from `nodePort`, in source
order (abstraction: the variable-port eraser when present, then the body;
application: function then argument; fan-in: the principal port from any
auxiliary port; fan-out: every auxiliary port from the principal port). -/
def childPorts (g : Graph) (np : Port) : List Port :=
  let n := np.1
  let port := np.2
  let nd := g.data n
  if nd.type == .abs && port == 0 then
    (if (g.data (getP g n 2).1).type == .era then [getP g n 2] else []) ++ [getP g n 1]
  else if nd.type == .app && port == 1 then [getP g n 0, getP g n 2]
  else if nd.type == .repIn && port != 0 then [getP g n 0]
  else if nd.type == .repOut && port == 0 then
    (List.range' 1 (nd.ports.length - 1)).map (fun i => getP g n i)
  else []

/-- Visit a list of child ports in order, stopping at the first one that
reports an optimal redex was found (the source's early `return true`). -/
def seqTrav (rec : TravState → Port → Bool × TravState) (st : TravState) :
    List Port → Bool × TravState
  | [] => (false, st)
  | p :: rest =>
    let r := rec st p
    if r.1 then r else seqTrav rec r.2 rest

/-- One level of the first root traversal of `getRedexes`, parametrised by
the recursive call `rec`: mark the first active pair found as optimal
(returning `true`), likewise a replicator-replicator merge pair, record
the first auxiliary-fan replication candidate, and recurse along child
ports under per-node visited marks. -/
def traverseStep (g : Graph) (rec : TravState → Port → Bool × TravState)
    (st : TravState) (np : Port) : Bool × TravState :=
  let n := np.1
  let nd := g.data n
  let partner := (getP g n 0).1
  if np.2 == 0 && (getP g partner 0).1 == n && (getRedexFind n partner st.redexes).isSome then
    (true, { st with redexes := markOptimal st.redexes n partner })
  else if isRepType nd.type && isRepType (g.data partner).type &&
      (getRedexFind n partner st.redexes).isSome then
    (true, { st with redexes := markOptimal st.redexes n partner })
  else
    let st1 := travMarkFA g st np
    if st1.visited.contains n then (false, st1)
    else
      let st2 := { st1 with visited := n :: st1.visited }
      seqTrav rec st2 (childPorts g np)

/-- The first root traversal.  Structural fuel bounds the recursion depth
(one unit per nesting level; the source depth is bounded by the node
count, so the `|nodes| + 2` fuel passed by `getRedexes` is never exhausted
on the graphs the engine runs on). -/
def traverse (g : Graph) : Nat → TravState → Port → Bool × TravState
  | 0, st, _ => (false, st)
  | fuel + 1, st, np => traverseStep g (traverse g fuel) st np

/-- The state of the second (spine) traversal. -/
structure Trav2State where
  visited : List Nat := []
  rs : List Redex

/-- The child ports the second (spine) traversal recurses into: the spine
stops at an application's argument and below a fan-out. -/
def childPorts2 (g : Graph) (np : Port) : List Port :=
  let n := np.1
  let port := np.2
  let nd := g.data n
  if nd.type == .abs && port == 0 then
    (if (g.data (getP g n 2).1).type == .era then [getP g n 2] else []) ++ [getP g n 1]
  else if nd.type == .app && port == 1 then [getP g n 0]
  else if nd.type == .repIn && port != 0 then [getP g n 0]
  else []

/-- One level of the second root traversal, parametrised by the recursive
call: mark spine annihilations/commutations whose replicators (if any) all
have unknown status, then recurse. -/
def traverse2Step (g : Graph) (rec : Trav2State → Port → Trav2State)
    (st : Trav2State) (np : Port) : Trav2State :=
  let n := np.1
  let nd := g.data n
  let other := (getP g n 0).1
  let st1 := if np.2 == 0 && (getP g other 0).1 == n &&
      (!(isRepType nd.type) || (parseRepLabel nd.label).2 == .unknown) &&
      (!(isRepType (g.data other).type) || (parseRepLabel (g.data other).label).2 == .unknown) then
      { st with rs := markOptimal st.rs n other }
    else st
  if st1.visited.contains n then st1
  else
    let st2 := { st1 with visited := n :: st1.visited }
    (childPorts2 g np).foldl rec st2

/-- The second root traversal (structural fuel, as for `traverse`). -/
def traverse2 (g : Graph) : Nat → Trav2State → Port → Trav2State
  | 0, st, _ => st
  | fuel + 1, st, np => traverse2Step g (traverse2 g fuel) st np

/-- The sort moving the optimal redex (at most one exists at that point)
to the front; JS `Array.sort` is stable, so this is the stable partition. -/
def sortOptimalFirst (rs : List Redex) : List Redex :=
  rs.filter (fun r => r.optimal) ++ rs.filter (fun r => !r.optimal)

/-- `getRedexes(graph, systemType, relativeLevel)`.  `none` embeds the
crash on a rootless graph in the non-linear branch (`graph.find(...)!`). -/
def getRedexes (g : Graph) (systemType : SystemType) (relativeLevel : Bool) :
    Option (List Redex) :=
  if systemType == .linear then
    some (g.nodes.foldl (processNodeLinear g) {}).redexes
  else
    match g.nodes.find? (fun m => (g.data m).type == .root) with
    | none => none
    | some rootNode =>
      let s0 := g.nodes.foldl (processNodeFull g systemType relativeLevel) {}
      let r1 := traverse g (g.nodes.length + 2)
        { visited := [], firstAuxFan := none, redexes := s0.redexes } (getP g rootNode 0)
      let rs1 := if r1.1 == false then
          match r1.2.firstAuxFan with
          | some ab => markOptimal r1.2.redexes ab.1 ab.2
          | none => r1.2.redexes
        else r1.2.redexes
      let rs2 := sortOptimalFirst rs1
      some (traverse2 g (g.nodes.length + 2) { visited := [], rs := rs2 } (getP g rootNode 0)).rs

/-- The abstract syntax tree fed to the compiler (`AstNode` in
`ast.ts`: abstraction, application, or variable). -/
inductive AstNode where
  | abs (name : String) (body : AstNode)
  | app (func arg : AstNode)
  | var (name : String)
deriving DecidableEq, Repr

/-- An entry of the compiler's `vars` map: the binding level and the node
port leading to the variable.  (The source's value type also declares an
optional `firstUsageLevel` field that is never written or read.) -/
structure VarData where
  level : Int
  nodePort : Port
deriving DecidableEq, Repr

/-- The compiler's `vars` map, embedded as an association list with unique
keys (JS `Map` get/set/delete). -/
abbrev Vars := List (String × VarData)

/-- `vars.get(name)`. -/
def varsGet (vs : Vars) (k : String) : Option VarData :=
  (vs.find? (fun p => p.1 == k)).map (fun p => p.2)

/-- `vars.set(name, v)`: replace the existing entry or append a new one. -/
def varsSet (vs : Vars) (k : String) (v : VarData) : Vars :=
  if (vs.find? (fun p => p.1 == k)).isSome then
    vs.map (fun p => if p.1 == k then (k, v) else p)
  else vs ++ [(k, v)]

/-- `vars.delete(name)`. -/
def varsDelete (vs : Vars) (k : String) : Vars :=
  vs.filter (fun p => p.1 != k)

/-- `addAstNodeToGraph(astNode, graph, vars, level, relativeLevel)`:
compiles the term into the graph, returning the parent port of the
compiled subterm together with the updated graph and variable map. -/
def addAstNodeToGraph (astNode : AstNode) (g : Graph) (vars : Vars) (level : Int)
    (relativeLevel : Bool) : Port × Graph × Vars :=
  match astNode with
  | .abs name body =>
    let eraser := g.fresh
    let g := pushNode g { type := .era, label := .name "era" }
    let node := g.fresh
    let g := pushNode g { type := .abs, label := .name ("λ" ++ name) }
    let g := link g (eraser, 0) (node, 2)
    let orig := varsGet vars name
    let vars := varsSet vars name { level := level, nodePort := (node, 2) }
    let (bodyPort, g, vars) := addAstNodeToGraph body g vars level relativeLevel
    let g := link g bodyPort (node, 1)
    let vars := match orig with
      | some o => varsSet vars name o
      | none => varsDelete vars name
    ((node, 0), g, vars)
  | .app func arg =>
    let node := g.fresh
    let g := pushNode g { type := .app, label := .name "@" }
    let (funcPort, g, vars) := addAstNodeToGraph func g vars level relativeLevel
    let g := link g funcPort (node, 0)
    let (argPort, g, vars) := addAstNodeToGraph arg g vars (level + 1) relativeLevel
    let g := link g argPort (node, 2)
    ((node, 1), g, vars)
  | .var name =>
    match varsGet vars name with
    | some varData =>
      let sourceNodePort := varData.nodePort
      let destNodePort := reciprocal g varData.nodePort
      if (g.data destNodePort.1).type = .era then
        let g := removeNode g destNodePort.1
        let node := g.fresh
        let g := pushNode g
          { type := .repIn
            label := .rep (if relativeLevel then 0 else varData.level + 1) .unpaired
            levelDeltas := [level - (varData.level + 1)] }
        let g := link g sourceNodePort (node, 0)
        ((node, 1), g, vars)
      else
        let rep := destNodePort.1
        let g := setData g rep
          { g.data rep with levelDeltas := (g.data rep).levelDeltas ++ [level - varData.level - 1] }
        ((rep, (g.data rep).ports.length), g, vars)
    | none =>
      let node := g.fresh
      let g := pushNode g { type := .var, label := .name name }
      let rep := g.fresh
      let g := pushNode g { type := .repIn, label := .rep 0 .unpaired, levelDeltas := [level - 1] }
      let g := link g (node, 0) (rep, 0)
      let vars := varsSet vars name { level := 0, nodePort := (node, 0) }
      ((rep, 1), g, vars)

/-- The empty graph (used as the out-of-range default of the history
stack; the source would crash there instead, but navigation keeps the
cursor in range). -/
def emptyGraph : Graph :=
  { nodes := [], data := fun _ => emptyNode, fresh := 0 }

/-- The history/session state relevant to stepping: the snapshot stack and
the cursor (`stack` / `idx` of `MethodState`). -/
structure HistState where
  stack : List Graph
  idx : Nat

/-- The graph the session currently shows. -/
def currentGraph (s : HistState) : Graph :=
  s.stack.getD s.idx emptyGraph

/-- `applyReduction(state, reduce)`: truncate the stack above the cursor,
insert a deep clone of the current graph below it (`splice(idx, 0, clone)`
on `slice(0, idx + 1)`), advance the cursor, then run the mutation on the
original graph object now sitting at the cursor.  `structuredClone` is the
identity on values in the embedding. -/
def applyReduction (reduce : Graph → Graph) (s : HistState) : HistState :=
  let cur := currentGraph s
  let sliced := s.stack.take (s.idx + 1)
  let stack1 := sliced.take s.idx ++ cur :: sliced.drop s.idx
  let stack2 := stack1.set (s.idx + 1) (reduce cur)
  { stack := stack2, idx := s.idx + 1 }

/-- The `back` navigation closure: move the cursor back one step. -/
def back (s : HistState) : HistState :=
  { s with idx := s.idx - 1 }

/-! ## Well-formedness

`Wf g` holds of every graph the engine actually runs on: the live array
has no duplicate entries, every live id is below the allocator, and wire
reciprocity holds — every port of a live node points at a live node, at a
valid index, whose entry points straight back. -/

/-- Wire reciprocity together with the structural facts that make it
meaningful (liveness and index validity of every port target, uniqueness
of array entries, allocator freshness). -/
def Wf (g : Graph) : Prop :=
  g.nodes.Nodup ∧
  (∀ n ∈ g.nodes, n < g.fresh) ∧
  (∀ n ∈ g.nodes, ∀ i, i < (g.data n).ports.length →
    (getP g n i).1 ∈ g.nodes ∧
    (getP g n i).2 < (g.data (getP g n i).1).ports.length ∧
    getP g (getP g n i).1 (getP g n i).2 = (n, i))

instance (g : Graph) : Decidable (Wf g) := by
  unfold Wf; infer_instance

/-! ## Basic lemmas about the primitives -/

lemma nodes_setData (g : Graph) (n : Nat) (r : NodeRec) : (setData g n r).nodes = g.nodes := rfl

lemma fresh_setData (g : Graph) (n : Nat) (r : NodeRec) : (setData g n r).fresh = g.fresh := rfl

lemma data_setData (g : Graph) (n : Nat) (r : NodeRec) (m : Nat) :
    (setData g n r).data m = if m = n then r else g.data m := rfl

lemma nodes_link (g : Graph) (a b : Port) : (link g a b).nodes = g.nodes := rfl

/-- Reading a padded list with the padding value as default is reading
the original list. -/
lemma getD_append_replicate (l : List Port) (k j : Nat) :
    (l ++ List.replicate k ((0, 0) : Port)).getD j (0, 0) = l.getD j (0, 0) := by
  rcases Nat.lt_or_ge j l.length with hlt | hge
  · rw [List.getD_eq_getElem?_getD, List.getElem?_append_left hlt, ← List.getD_eq_getElem?_getD]
  · rw [List.getD_eq_getElem?_getD, List.getElem?_append_right hge,
      List.getD_eq_getElem?_getD, List.getElem?_eq_none hge]
    rcases Nat.lt_or_ge (j - l.length) k with h | h
    · simp [List.getElem?_replicate, h]
    · simp [List.getElem?_replicate, Nat.not_lt.mpr h]

/-- Reading back through a JS-style padded write. -/
lemma getD_setPort (r : NodeRec) (i : Nat) (p : Port) (j : Nat) :
    (setPort r i p).ports.getD j (0, 0) = if j = i then p else r.ports.getD j (0, 0) := by
  unfold setPort
  have hlen : i < (r.ports ++ List.replicate (i + 1 - r.ports.length) ((0, 0) : Port)).length := by
    simp [List.length_append]
    omega
  by_cases h : j = i
  · subst h
    simp only [if_pos rfl, List.getD_eq_getElem?_getD, List.getElem?_set_self, hlen]
    simp [List.getElem?_eq_getElem, hlen]
  · rw [if_neg h, List.getD_eq_getElem?_getD, List.getElem?_set_ne (fun hh => h hh.symm),
      ← List.getD_eq_getElem?_getD, getD_append_replicate]

lemma length_setPort (r : NodeRec) (i : Nat) (p : Port) :
    (setPort r i p).ports.length = max r.ports.length (i + 1) := by
  unfold setPort
  simp [List.length_append]
  omega

lemma type_setPort (r : NodeRec) (i : Nat) (p : Port) : (setPort r i p).type = r.type := rfl

lemma levelDeltas_setPort (r : NodeRec) (i : Nat) (p : Port) :
    (setPort r i p).levelDeltas = r.levelDeltas := rfl

/-- `getD_setPort` in the `getElem?` normal form used by `simp`. -/
lemma getElem?_getD_setPort (r : NodeRec) (i : Nat) (p : Port) (j : Nat) :
    ((setPort r i p).ports[j]?).getD (0, 0) = if j = i then p else (r.ports[j]?).getD (0, 0) := by
  have h := getD_setPort r i p j
  rwa [List.getD_eq_getElem?_getD, List.getD_eq_getElem?_getD] at h

/-- `getElem?_getD_setPort` with the default written as the product zero,
the form `simp` normalizes `(0, 0)` to. -/
lemma getElem?_getD_setPort0 (r : NodeRec) (i : Nat) (p : Port) (j : Nat) :
    ((setPort r i p).ports[j]?).getD (0 : Nat × Nat) =
      if j = i then p else (r.ports[j]?).getD (0 : Nat × Nat) :=
  getElem?_getD_setPort r i p j

/-- The port map after `link(a, b)`. -/
lemma getP_link (g : Graph) (a b : Port) (n i : Nat) :
    getP (link g a b) n i = if (n, i) = b then a else if (n, i) = a then b else getP g n i := by
  obtain ⟨a1, a2⟩ := a
  obtain ⟨b1, b2⟩ := b
  unfold getP link
  simp only [data_setData, Prod.mk.injEq]
  by_cases h1 : n = b1 <;> by_cases h2 : i = b2 <;> by_cases h3 : n = a1 <;>
    by_cases h4 : i = a2 <;>
    simp_all [getD_setPort, getElem?_getD_setPort, getElem?_getD_setPort0, getP]

/-- Node records of nodes not touched by a `link` are unchanged. -/
lemma data_link_of_ne (g : Graph) (a b : Port) (m : Nat) (ha : m ≠ a.1) (hb : m ≠ b.1) :
    (link g a b).data m = g.data m := by
  unfold link
  simp [data_setData, ha, hb]

/-- The record of `b.node` after `link(a, b)` when the two ends live on
different nodes. -/
lemma data_link_fst (g : Graph) (a b : Port) (hab : a.1 ≠ b.1) :
    (link g a b).data b.1 = setPort (g.data b.1) b.2 a := by
  have h1 : ¬ b.1 = a.1 := fun h => hab h.symm
  unfold link
  simp [data_setData, h1]

/-- The record of `a.node` after `link(a, b)` when the two ends live on
different nodes. -/
lemma data_link_snd (g : Graph) (a b : Port) (hab : a.1 ≠ b.1) :
    (link g a b).data a.1 = setPort (g.data a.1) a.2 b := by
  unfold link
  simp [data_setData, hab]

/-- Fold a list of `link` calls. -/
def linkList (g : Graph) (ps : List (Port × Port)) : Graph :=
  ps.foldl (fun h pq => link h pq.1 pq.2) g

/-- The new far end of a location after a link sequence, if any. -/
def lookupLoc (x : Port) : List (Port × Port) → Option Port
  | [] => none
  | (a, b) :: rest => if x = a then some b else if x = b then some a else lookupLoc x rest

/-- All locations touched by a link sequence. -/
def locs : List (Port × Port) → List Port
  | [] => []
  | (a, b) :: rest => a :: b :: locs rest

lemma lookupLoc_eq_none_of_not_mem {x : Port} {ps : List (Port × Port)}
    (h : x ∉ locs ps) : lookupLoc x ps = none := by
  induction ps with
  | nil => rfl
  | cons pq rest ih =>
    obtain ⟨a, b⟩ := pq
    simp only [locs, List.mem_cons] at h
    push_neg at h
    simp only [lookupLoc, if_neg h.1, if_neg h.2.1]
    exact ih h.2.2

lemma nodes_linkList (g : Graph) (ps : List (Port × Port)) : (linkList g ps).nodes = g.nodes := by
  induction ps generalizing g with
  | nil => rfl
  | cons pq rest ih => simpa [linkList] using ih (link g pq.1 pq.2)

/-- Closed form of a link sequence over pairwise-distinct locations:
each touched location ends up pointing at its mate, everything else is
unchanged. -/
lemma getP_linkList (g : Graph) (ps : List (Port × Port)) (hnd : (locs ps).Nodup) (n i : Nat) :
    getP (linkList g ps) n i = (lookupLoc (n, i) ps).getD (getP g n i) := by
  induction ps generalizing g with
  | nil => rfl
  | cons pq rest ih =>
    obtain ⟨a, b⟩ := pq
    simp only [locs, List.nodup_cons, List.mem_cons] at hnd
    obtain ⟨ha, hb, hrest⟩ := hnd
    push_neg at ha
    simp only [linkList, List.foldl_cons]
    rw [show (rest.foldl (fun h pq => link h pq.1 pq.2) (link g a b)) = linkList (link g a b) rest from rfl,
      ih (link g a b) hrest]
    simp only [lookupLoc]
    by_cases h1 : (n, i) = a
    · rw [if_pos h1, lookupLoc_eq_none_of_not_mem (h1 ▸ ha.2), Option.getD_none,
        Option.getD_some, getP_link]
      by_cases h2 : (n, i) = b
      · rw [if_pos h2]
        exact h1.symm.trans h2
      · rw [if_neg h2, if_pos h1]
    · rw [if_neg h1]
      by_cases h2 : (n, i) = b
      · rw [if_pos h2, lookupLoc_eq_none_of_not_mem (h2 ▸ hb), Option.getD_none,
          Option.getD_some, getP_link, if_pos h2]
      · rw [if_neg h2]
        congr 1
        rw [getP_link, if_neg h2, if_neg h1]

/-- C4 helper: the cloned snapshot sits at the old cursor after a step. -/
lemma getD_applyReduction (reduce : Graph → Graph) (s : HistState)
    (h : s.idx < s.stack.length) :
    (applyReduction reduce s).stack.getD s.idx emptyGraph = currentGraph s := by
  unfold applyReduction
  have hsl : (s.stack.take (s.idx + 1)).length = s.idx + 1 := by
    rw [List.length_take]; omega
  have ht : ((s.stack.take (s.idx + 1)).take s.idx).length = s.idx := by
    rw [List.length_take, hsl]; omega
  rw [List.getD_eq_getElem?_getD, List.getElem?_set_ne (by omega),
    List.getElem?_append_right ht.le, ht]
  simp

/-- C4: stepping (`applyReduction` with any reduce thunk) and then going
`back` shows a graph equal to the pre-step current graph, because
`applyReduction` deep-clones the current graph into the stack before
running the mutation. -/
theorem history_round_trip (reduce : Graph → Graph) (s : HistState)
    (h : s.idx < s.stack.length) :
    currentGraph (back (applyReduction reduce s)) = currentGraph s := by
  have hidx : (applyReduction reduce s).idx = s.idx + 1 := rfl
  unfold currentGraph back
  simp only [hidx, Nat.add_sub_cancel]
  exact getD_applyReduction reduce s h

/-- Witness for C4 at a concrete one-element history. -/
theorem history_round_trip_witness :
    currentGraph (back (applyReduction id { stack := [emptyGraph], idx := 0 })) =
      currentGraph { stack := [emptyGraph], idx := 0 } :=
  history_round_trip id { stack := [emptyGraph], idx := 0 } (by simp)

/-! ## Shape transport through the marking and sorting phases

Every phase after the scan only flips `optimal` flags and permutes the
list: node pair and thunk of each redex never change.  `shapeEq`/`Forall₂`
track this pointwise, a permutation argument handles the sort. -/

/-- Same pair and same thunk (the optimality flag may differ). -/
def shapeEq (r r' : Redex) : Prop :=
  r'.a = r.a ∧ r'.b = r.b ∧ r'.reduce = r.reduce

lemma shapeEq_refl (r : Redex) : shapeEq r r := ⟨rfl, rfl, rfl⟩

lemma forall₂_shapeEq_refl (rs : List Redex) : List.Forall₂ shapeEq rs rs := by
  induction rs with
  | nil => exact List.Forall₂.nil
  | cons r rest ih => exact List.Forall₂.cons (shapeEq_refl r) ih

lemma forall₂_shapeEq_trans {l1 l2 l3 : List Redex}
    (h12 : List.Forall₂ shapeEq l1 l2) (h23 : List.Forall₂ shapeEq l2 l3) :
    List.Forall₂ shapeEq l1 l3 := by
  induction h12 generalizing l3 with
  | nil => cases h23; exact List.Forall₂.nil
  | cons h hrest ih =>
    cases h23 with
    | cons h' hrest' =>
      exact List.Forall₂.cons ⟨h'.1.trans h.1, h'.2.1.trans h.2.1, h'.2.2.trans h.2.2⟩ (ih hrest')

lemma forall₂_shapeEq_map (f : Redex → Redex) (hf : ∀ r, shapeEq r (f r)) (rs : List Redex) :
    List.Forall₂ shapeEq rs (rs.map f) := by
  induction rs with
  | nil => exact List.Forall₂.nil
  | cons r rest ih => exact List.Forall₂.cons (hf r) ih

lemma shapeEq_markOptimal (rs : List Redex) (a b : Nat) :
    List.Forall₂ shapeEq rs (markOptimal rs a b) := by
  refine forall₂_shapeEq_map _ (fun r => ?_) rs
  by_cases h : pairEq a b r
  · simp [h, shapeEq]
  · simp [h, shapeEq]

lemma mem_of_forall₂_shapeEq {l1 l2 : List Redex} (h : List.Forall₂ shapeEq l1 l2)
    {r' : Redex} (hr : r' ∈ l2) : ∃ r ∈ l1, shapeEq r r' := by
  induction h with
  | nil => cases hr
  | cons hh hrest ih =>
    rcases List.mem_cons.mp hr with h1 | h2
    · exact ⟨_, List.mem_cons_self _ _, h1 ▸ hh⟩
    · obtain ⟨r, hm, hs⟩ := ih h2
      exact ⟨r, List.mem_cons_of_mem _ hm, hs⟩

lemma travMarkFA_redexes (g : Graph) (st : TravState) (np : Port) :
    (travMarkFA g st np).redexes = st.redexes := by
  unfold travMarkFA
  split
  · split <;> rfl
  · rfl

lemma seqTrav_shape (rec : TravState → Port → Bool × TravState)
    (hrec : ∀ st np, List.Forall₂ shapeEq st.redexes (rec st np).2.redexes) :
    ∀ ps st, List.Forall₂ shapeEq st.redexes (seqTrav rec st ps).2.redexes := by
  intro ps
  induction ps with
  | nil => intro st; exact forall₂_shapeEq_refl _
  | cons p rest ih =>
    intro st
    rw [seqTrav]
    split
    · exact hrec st p
    · exact forall₂_shapeEq_trans (hrec st p) (ih _)

lemma traverseStep_shape (g : Graph) (rec : TravState → Port → Bool × TravState)
    (hrec : ∀ st np, List.Forall₂ shapeEq st.redexes (rec st np).2.redexes)
    (st : TravState) (np : Port) :
    List.Forall₂ shapeEq st.redexes (traverseStep g rec st np).2.redexes := by
  unfold traverseStep
  dsimp only
  split
  · exact shapeEq_markOptimal _ _ _
  · split
    · exact shapeEq_markOptimal _ _ _
    · split
      · rw [travMarkFA_redexes]
        exact forall₂_shapeEq_refl _
      · have := seqTrav_shape rec hrec (childPorts g np)
          { travMarkFA g st np with visited := np.1 :: (travMarkFA g st np).visited }
        rwa [travMarkFA_redexes] at this

/-- The first traversal only marks: pair and thunk of every redex slot are
preserved. -/
lemma traverse_shape (g : Graph) :
    ∀ fuel st np, List.Forall₂ shapeEq st.redexes (traverse g fuel st np).2.redexes := by
  intro fuel
  induction fuel with
  | zero => intro st np; exact forall₂_shapeEq_refl _
  | succ fuel ih =>
    intro st np
    rw [traverse]
    exact traverseStep_shape g (traverse g fuel) ih st np

lemma traverse2Step_shape (g : Graph) (rec : Trav2State → Port → Trav2State)
    (hrec : ∀ st np, List.Forall₂ shapeEq st.rs (rec st np).rs)
    (st : Trav2State) (np : Port) :
    List.Forall₂ shapeEq st.rs (traverse2Step g rec st np).rs := by
  have hfold : ∀ (ps : List Port) (st' : Trav2State),
      List.Forall₂ shapeEq st'.rs (ps.foldl rec st').rs := by
    intro ps
    induction ps with
    | nil => intro st'; exact forall₂_shapeEq_refl _
    | cons p rest ih =>
      intro st'
      exact forall₂_shapeEq_trans (hrec st' p) (ih _)
  unfold traverse2Step
  dsimp only
  have key : ∀ st1 : Trav2State, List.Forall₂ shapeEq st.rs st1.rs →
      List.Forall₂ shapeEq st.rs ((if st1.visited.contains np.1 then st1
        else (childPorts2 g np).foldl rec { st1 with visited := np.1 :: st1.visited }).rs) := by
    intro st1 h1
    split
    · exact h1
    · exact forall₂_shapeEq_trans h1 (hfold (childPorts2 g np) { st1 with visited := np.1 :: st1.visited })
  refine key _ ?_
  split
  · exact shapeEq_markOptimal _ _ _
  · exact forall₂_shapeEq_refl _

/-- The second traversal only marks. -/
lemma traverse2_shape (g : Graph) :
    ∀ fuel st np, List.Forall₂ shapeEq st.rs (traverse2 g fuel st np).rs := by
  intro fuel
  induction fuel with
  | zero => intro st np; exact forall₂_shapeEq_refl _
  | succ fuel ih =>
    intro st np
    rw [traverse2]
    exact traverse2Step_shape g (traverse2 g fuel) ih st np

/-! ## What the scan phase can create -/

lemma redexes_createRedex (st : ScanState) (a b : Nat) (opt : Bool) (f : Graph → Option Graph) :
    (createRedex st a b opt f).redexes = st.redexes ∨
    (createRedex st a b opt f).redexes = st.redexes ++
      [{ a := a, b := b, optimal := opt, reduce := guardReduce a b f }] := by
  unfold createRedex
  split
  · split
    · exact Or.inl rfl
    · exact Or.inl rfl
  · exact Or.inr rfl

lemma mem_createRedex {st : ScanState} {a b : Nat} {opt : Bool} {f : Graph → Option Graph}
    {r : Redex} (hr : r ∈ (createRedex st a b opt f).redexes) :
    r ∈ st.redexes ∨ r = { a := a, b := b, optimal := opt, reduce := guardReduce a b f } := by
  rcases redexes_createRedex st a b opt f with h | h <;> rw [h] at hr
  · exact Or.inl hr
  · rcases List.mem_append.mp hr with h1 | h1
    · exact Or.inl h1
    · exact Or.inr (List.mem_singleton.mp h1)

/-- What every redex created by the non-linear scan satisfies: non-optimal,
guarded thunk, and neither endpoint typed `root` or `var`. -/
def CreatedFull (g : Graph) (r : Redex) : Prop :=
  r.optimal = false ∧
  (∃ f, r.reduce = guardReduce r.a r.b f) ∧
  (g.data r.a).type ≠ .root ∧ (g.data r.a).type ≠ .var ∧
  (g.data r.b).type ≠ .root ∧ (g.data r.b).type ≠ .var

/-- What every redex created by the linear scan while processing node `n`
satisfies. -/
def CreatedLin (g : Graph) (n : Nat) (r : Redex) : Prop :=
  r.a = n ∧ r.b = (getP g n 0).1 ∧ (getP g n 0).2 = 0 ∧ r.optimal = true ∧
  (∃ f, r.reduce = guardReduce r.a r.b f) ∧
  (g.data r.a).type ≠ .root ∧ (g.data r.a).type ≠ .var ∧
  (g.data r.b).type ≠ .root ∧ (g.data r.b).type ≠ .var

lemma foldl_redexes_mem {α : Type} (f : ScanState → α → ScanState) (C : α → Redex → Prop)
    (hf : ∀ st x r, r ∈ (f st x).redexes → r ∈ st.redexes ∨ C x r) :
    ∀ (l : List α) (st : ScanState) (r : Redex), r ∈ (l.foldl f st).redexes →
      r ∈ st.redexes ∨ ∃ x ∈ l, C x r := by
  intro l
  induction l with
  | nil => intro st r hr; exact Or.inl hr
  | cons x rest ih =>
    intro st r hr
    rcases ih (f st x) r hr with h | h
    · rcases hf st x r h with h1 | h1
      · exact Or.inl h1
      · exact Or.inr ⟨x, List.mem_cons_self _ _, h1⟩
    · obtain ⟨y, hy, hC⟩ := h
      exact Or.inr ⟨y, List.mem_cons_of_mem _ hy, hC⟩

lemma redexes_errIte (c : Bool) (st : ScanState) (msg : String) :
    (if c = true then { st with errors := st.errors ++ [msg] } else st).redexes = st.redexes := by
  split <;> rfl

lemma repType_ne {t : NodeType} (h : isRepType t = true) : t ≠ .root ∧ t ≠ .var := by
  simp only [isRepType, Bool.or_eq_true, beq_iff_eq] at h
  rcases h with h | h <;> subst h <;> exact ⟨by simp, by simp⟩

lemma mem_processPP {g : Graph} {rl : Bool} {st : ScanState} {n : Nat} {r : Redex}
    (hr : r ∈ (processPP g rl st n).redexes) :
    r ∈ st.redexes ∨ CreatedFull g r := by
  unfold processPP at hr
  dsimp only at hr
  split at hr
  · exact Or.inl hr
  · rename_i hskip
    simp only [Bool.or_eq_true, beq_iff_eq] at hskip
    push_neg at hskip
    obtain ⟨⟨⟨hnv, hpv⟩, hnr⟩, hpr⟩ := hskip
    have leaf : ∀ {f : Graph → Option Graph},
        r ∈ (createRedex st n ((g.data n).ports.getD 0 (0, 0)).1 false f).redexes →
        r ∈ st.redexes ∨ CreatedFull g r := by
      intro f hmem
      rcases mem_createRedex hmem with h | h
      · exact Or.inl h
      · subst h
        exact Or.inr ⟨rfl, ⟨f, rfl⟩, hnr, hnv, hpr, hpv⟩
    split at hr
    · exact leaf hr
    · split at hr
      · exact leaf hr
      · split at hr
        · exact leaf hr
        · split at hr
          · exact leaf hr
          · split at hr
            · split at hr
              · exact leaf hr
              · exact leaf hr
            · exact Or.inl hr

lemma mem_processMerge {g : Graph} {st : ScanState} {n : Nat} {r : Redex}
    (hr : r ∈ (processMerge g st n).redexes)
    (hrep1 : isRepType (g.data n).type = true)
    (hrep2 : isRepType (g.data ((g.data n).ports.getD 0 (0, 0)).1).type = true) :
    r ∈ st.redexes ∨ CreatedFull g r := by
  unfold processMerge at hr
  dsimp only at hr
  obtain ⟨h1r, h1v⟩ := repType_ne hrep1
  obtain ⟨h2r, h2v⟩ := repType_ne hrep2
  have leaf : ∀ {f : Graph → Option Graph},
      r ∈ (createRedex st ((g.data n).ports.getD 0 (0, 0)).1 n false f).redexes →
      r ∈ st.redexes ∨ CreatedFull g r := by
    intro f hmem
    rcases mem_createRedex hmem with h | h
    · exact Or.inl h
    · subst h
      exact Or.inr ⟨rfl, ⟨f, rfl⟩, h2r, h2v, h1r, h1v⟩
  split at hr
  · rw [if_pos rfl] at hr
    exact leaf hr
  · split at hr
    · exact leaf hr
    · exact Or.inl hr

lemma mem_processNodeFull {g : Graph} {sys : SystemType} {rl : Bool} {st : ScanState}
    {n : Nat} {r : Redex} (hr : r ∈ (processNodeFull g sys rl st n).redexes) :
    r ∈ st.redexes ∨ CreatedFull g r := by
  unfold processNodeFull at hr
  dsimp only at hr
  split at hr
  · rcases mem_processPP hr with h | h
    · rw [redexes_errIte] at h
      exact Or.inl h
    · exact Or.inr h
  · split at hr
    · rename_i hcond
      simp only [Bool.and_eq_true] at hcond
      rcases mem_processMerge hr hcond.1.1 hcond.1.2 with h | h
      · rw [redexes_errIte] at h
        exact Or.inl h
      · exact Or.inr h
    · split at hr
      · rename_i hcond
        simp only [Bool.and_eq_true, beq_iff_eq] at hcond
        rcases mem_createRedex hr with h | h
        · rw [redexes_errIte] at h
          exact Or.inl h
        · subst h
          obtain ⟨h1r, h1v⟩ := repType_ne hcond.1.1
          exact Or.inr ⟨rfl, ⟨_, rfl⟩, h1r, h1v, by rw [hcond.1.2]; simp, by rw [hcond.1.2]; simp⟩
      · rw [redexes_errIte] at hr
        exact Or.inl hr

/-- Every redex issued by the full-system scan phase. -/
lemma mem_scanFull {g : Graph} {sys : SystemType} {rl : Bool} {r : Redex}
    (hr : r ∈ (g.nodes.foldl (processNodeFull g sys rl) {}).redexes) : CreatedFull g r := by
  rcases foldl_redexes_mem (processNodeFull g sys rl) (fun _ r => CreatedFull g r)
      (fun st x r h => mem_processNodeFull h) g.nodes {} r hr with h | h
  · cases h
  · obtain ⟨x, _, hC⟩ := h
    exact hC

lemma mem_processNodeLinear {g : Graph} {st : ScanState} {n : Nat} {r : Redex}
    (hr : r ∈ (processNodeLinear g st n).redexes) :
    r ∈ st.redexes ∨ CreatedLin g n r := by
  unfold processNodeLinear at hr
  dsimp only at hr
  split at hr
  · rename_i hpp
    split at hr
    · rw [redexes_errIte, redexes_errIte] at hr
      exact Or.inl hr
    · rename_i hskip
      simp only [Bool.or_eq_true, beq_iff_eq] at hskip
      push_neg at hskip
      obtain ⟨⟨⟨hnv, hpv⟩, hnr⟩, hpr⟩ := hskip
      rcases mem_createRedex hr with h | h
      · rw [redexes_errIte, redexes_errIte, redexes_errIte] at h
        exact Or.inl h
      · subst h
        refine ⟨rfl, rfl, ?_, rfl, ⟨_, rfl⟩, hnr, hnv, hpr, hpv⟩ |> Or.inr
        exact beq_iff_eq.mp hpp
  · exact Or.inl hr

/-- Every redex issued by the linear scan. -/
lemma mem_scanLinear {g : Graph} {r : Redex}
    (hr : r ∈ (g.nodes.foldl (processNodeLinear g) {}).redexes) :
    ∃ n ∈ g.nodes, CreatedLin g n r := by
  rcases foldl_redexes_mem (processNodeLinear g) (CreatedLin g)
      (fun st x r h => mem_processNodeLinear h) g.nodes {} r hr with h | h
  · cases h
  · exact h

/-! ## Membership transport through the whole of `getRedexes` -/

lemma mem_sortOptimalFirst {rs : List Redex} {r : Redex} (h : r ∈ sortOptimalFirst rs) :
    r ∈ rs := by
  unfold sortOptimalFirst at h
  rcases List.mem_append.mp h with h | h <;> exact List.mem_of_mem_filter h

/-- Any redex returned by non-linear `getRedexes` is, up to its optimality
flag, a redex created by the scan phase. -/
lemma mem_getRedexes_full {g : Graph} {sys : SystemType} {rl : Bool} {rs : List Redex}
    {r : Redex} (hsys : (sys == SystemType.linear) = false)
    (h : getRedexes g sys rl = some rs) (hr : r ∈ rs) :
    ∃ r0, CreatedFull g r0 ∧ shapeEq r0 r := by
  unfold getRedexes at h
  rw [if_neg (by simp [hsys])] at h
  cases hfind : g.nodes.find? (fun m => (g.data m).type == .root) with
  | none =>
    rw [hfind] at h
    cases h
  | some rootNode =>
    rw [hfind] at h
    dsimp only at h
    have hrs := (Option.some.injEq _ _).mp h
    subst hrs
    obtain ⟨r2, hr2, hs2⟩ := mem_of_forall₂_shapeEq (traverse2_shape g _ _ _) hr
    have hr2s := mem_sortOptimalFirst hr2
    set trv := traverse g (g.nodes.length + 2)
      { visited := [], firstAuxFan := none,
        redexes := (g.nodes.foldl (processNodeFull g sys rl) {}).redexes }
      (getP g rootNode 0) with htrv
    have step1 : ∃ r1 ∈ trv.2.redexes, shapeEq r1 r2 := by
      by_cases hb : (trv.1 == false) = true
      · rw [if_pos hb] at hr2s
        cases hfa : trv.2.firstAuxFan with
        | some ab =>
          rw [hfa] at hr2s
          exact mem_of_forall₂_shapeEq (shapeEq_markOptimal _ _ _) hr2s
        | none =>
          rw [hfa] at hr2s
          exact ⟨r2, hr2s, shapeEq_refl r2⟩
      · rw [if_neg hb] at hr2s
        exact ⟨r2, hr2s, shapeEq_refl r2⟩
    obtain ⟨r1, hr1, hs1⟩ := step1
    obtain ⟨r0, hr0, hs0⟩ := mem_of_forall₂_shapeEq (traverse_shape g _ _ _) hr1
    refine ⟨r0, mem_scanFull hr0, ?_⟩
    exact ⟨hs2.1.trans (hs1.1.trans hs0.1), hs2.2.1.trans (hs1.2.1.trans hs0.2.1),
      hs2.2.2.trans (hs1.2.2.trans hs0.2.2)⟩

/-- Any redex returned by linear `getRedexes` comes straight from the
linear scan. -/
lemma mem_getRedexes_linear {g : Graph} {rl : Bool} {rs : List Redex} {r : Redex}
    (h : getRedexes g .linear rl = some rs) (hr : r ∈ rs) :
    ∃ n ∈ g.nodes, CreatedLin g n r := by
  unfold getRedexes at h
  rw [if_pos (by rfl)] at h
  have hrs := (Option.some.injEq _ _).mp h
  subst hrs
  exact mem_scanLinear hr

/-! ## C8 and C10 -/

lemma guardReduce_stale (a b : Nat) (f : Graph → Option Graph) (g' : Graph)
    (h : a ∉ g'.nodes ∨ b ∉ g'.nodes) : guardReduce a b f g' = some g' := by
  unfold guardReduce
  have hc : ((g'.nodes.find? (fun m => m == a)).isNone ||
      (g'.nodes.find? (fun m => m == b)).isNone) = true := by
    rw [Bool.or_eq_true]
    rcases h with h | h
    · left
      rw [Option.isNone_iff_eq_none, List.find?_eq_none]
      intro x hx hbeq
      exact h ((beq_iff_eq.mp hbeq) ▸ hx)
    · right
      rw [Option.isNone_iff_eq_none, List.find?_eq_none]
      intro x hx hbeq
      exact h ((beq_iff_eq.mp hbeq) ▸ hx)
  rw [if_pos hc]

/-- C8: invoking a redex thunk after either of its two nodes has left the
live node list is a no-op: the thunk returns the graph untouched (and does
not throw). -/
theorem stale_redex_noop (g : Graph) (sys : SystemType) (rl : Bool) (rs : List Redex)
    (h : getRedexes g sys rl = some rs) (r : Redex) (hr : r ∈ rs) (g' : Graph)
    (hstale : r.a ∉ g'.nodes ∨ r.b ∉ g'.nodes) :
    r.reduce g' = some g' := by
  by_cases hsys : (sys == SystemType.linear) = true
  · have hlin : sys = .linear := by
      cases sys <;> simp_all
    subst hlin
    obtain ⟨n, _, hC⟩ := mem_getRedexes_linear h hr
    obtain ⟨_, _, _, _, ⟨f, hf⟩, _⟩ := hC
    rw [hf]
    exact guardReduce_stale _ _ _ _ hstale
  · obtain ⟨r0, hC, hs⟩ := mem_getRedexes_full (by simp_all) h hr
    obtain ⟨_, ⟨f, hf⟩, _⟩ := hC
    rw [hs.2.2, hf, ← hs.1, ← hs.2.1]
    exact guardReduce_stale _ _ _ _ hstale

/-- C10: `getRedexes` never returns a redex whose endpoints include the
root node or a free-variable node, under any discipline. -/
theorem no_root_or_var_redexes (g : Graph) (sys : SystemType) (rl : Bool) (rs : List Redex)
    (h : getRedexes g sys rl = some rs) (r : Redex) (hr : r ∈ rs) :
    (g.data r.a).type ≠ .root ∧ (g.data r.a).type ≠ .var ∧
    (g.data r.b).type ≠ .root ∧ (g.data r.b).type ≠ .var := by
  by_cases hsys : (sys == SystemType.linear) = true
  · have hlin : sys = .linear := by
      cases sys <;> simp_all
    subst hlin
    obtain ⟨n, _, hC⟩ := mem_getRedexes_linear h hr
    obtain ⟨_, _, _, _, _, h1, h2, h3, h4⟩ := hC
    exact ⟨h1, h2, h3, h4⟩
  · obtain ⟨r0, hC, hs⟩ := mem_getRedexes_full (by simp_all) h hr
    obtain ⟨_, _, h1, h2, h3, h4⟩ := hC
    rw [hs.1, hs.2.1]
    exact ⟨h1, h2, h3, h4⟩

/-- The graph used for concrete scanner runs: the root wired to a free
variable `u`, plus a detached eraser-eraser active pair (ids 2 and 3). -/
def gEE : Graph :=
  { nodes := [0, 1, 2, 3]
    data := fun n =>
      if n = 0 then { type := .root, label := .name "root", ports := [(1, 0)] }
      else if n = 1 then { type := .var, label := .name "u", ports := [(0, 0)] }
      else if n = 2 then { type := .era, label := .name "era", ports := [(3, 0)] }
      else if n = 3 then { type := .era, label := .name "era", ports := [(2, 0)] }
      else emptyNode
    fresh := 4 }

/-- The pair-and-flag view of a redex, for concrete runs. -/
def projRedex (r : Redex) : Nat × Nat × Bool :=
  (r.a, r.b, r.optimal)

/-- The concrete redex list the scanner returns on `gEE`. -/
def rsEE : List Redex :=
  (getRedexes gEE .full false).getD []

/-- Witness for C8: on the concrete graph `gEE` the scanner returns the
eraser-eraser redex, and firing its thunk against a graph from which both
nodes are gone returns that graph unchanged. -/
theorem stale_redex_noop_witness :
    rsEE.map projRedex = [(2, 3, false)] ∧
    ∀ r ∈ rsEE, r.reduce emptyGraph = some emptyGraph := by
  refine ⟨by decide, fun r hr => ?_⟩
  exact stale_redex_noop gEE .full false rsEE rfl r hr emptyGraph
    (Or.inl (List.not_mem_nil _))

/-- Witness for C10 on the same concrete scanner run. -/
theorem no_root_or_var_redexes_witness :
    rsEE.map projRedex = [(2, 3, false)] ∧
    ∀ r ∈ rsEE, (gEE.data r.a).type ≠ .root ∧ (gEE.data r.a).type ≠ .var ∧
      (gEE.data r.b).type ≠ .root ∧ (gEE.data r.b).type ≠ .var := by
  refine ⟨by decide, fun r hr => ?_⟩
  exact no_root_or_var_redexes gEE .full false rsEE rfl r hr

/-- C9 counterexample: on `gEE`, the detached eraser-eraser active pair is
returned by the scanner with `optimal == false`, not as an unconditionally
optimal redex. -/
theorem era_era_counterexample :
    ((getRedexes gEE .full false).map (fun rs => rs.map projRedex)) = some [(2, 3, false)] ∧
    (gEE.data 2).type = .era ∧ (gEE.data 3).type = .era ∧
    getP gEE 2 0 = (3, 0) ∧ getP gEE 3 0 = (2, 0) := by
  decide

/-! ## C3: one фan-in per used variable -/

/-- C3: compiling an occurrence of a bound variable: on the first use (the
binder port still leads to its initial eraser) the eraser is removed and a
single fresh ReplicatorIn appears, threaded through the binder port, whose
one level delta is `use_level - (bind_level + 1)`; on every later use (the
binder port leads to the existing replicator) no node is created at all and
the same replicator gains one more level delta `use_level - bind_level - 1`,
the returned port being its next free auxiliary slot. -/
theorem compile_var_replicator_wiring (g : Graph) (vars : Vars) (level : Int)
    (rl : Bool) (x : String) (vd : VarData) (hget : varsGet vars x = some vd)
    (hfresh : vd.nodePort.1 ≠ g.fresh) :
    ((g.data (reciprocal g vd.nodePort).1).type = .era →
      (addAstNodeToGraph (.var x) g vars level rl).1 = (g.fresh, 1) ∧
      (addAstNodeToGraph (.var x) g vars level rl).2.1.nodes =
        g.nodes.filter (fun m => m ≠ (reciprocal g vd.nodePort).1) ++ [g.fresh] ∧
      ((addAstNodeToGraph (.var x) g vars level rl).2.1.data g.fresh).type = .repIn ∧
      ((addAstNodeToGraph (.var x) g vars level rl).2.1.data g.fresh).levelDeltas =
        [level - (vd.level + 1)] ∧
      ((addAstNodeToGraph (.var x) g vars level rl).2.1.data g.fresh).ports = [vd.nodePort] ∧
      getP (addAstNodeToGraph (.var x) g vars level rl).2.1 vd.nodePort.1 vd.nodePort.2 =
        (g.fresh, 0) ∧
      (addAstNodeToGraph (.var x) g vars level rl).2.2 = vars) ∧
    ((g.data (reciprocal g vd.nodePort).1).type ≠ .era →
      (addAstNodeToGraph (.var x) g vars level rl).1 =
        ((reciprocal g vd.nodePort).1, (g.data (reciprocal g vd.nodePort).1).ports.length) ∧
      (addAstNodeToGraph (.var x) g vars level rl).2.1.nodes = g.nodes ∧
      ((addAstNodeToGraph (.var x) g vars level rl).2.1.data
          (reciprocal g vd.nodePort).1).levelDeltas =
        (g.data (reciprocal g vd.nodePort).1).levelDeltas ++ [level - vd.level - 1] ∧
      ((addAstNodeToGraph (.var x) g vars level rl).2.1.data
          (reciprocal g vd.nodePort).1).type = (g.data (reciprocal g vd.nodePort).1).type ∧
      ((addAstNodeToGraph (.var x) g vars level rl).2.1.data
          (reciprocal g vd.nodePort).1).ports = (g.data (reciprocal g vd.nodePort).1).ports ∧
      (∀ m, m ≠ (reciprocal g vd.nodePort).1 →
        (addAstNodeToGraph (.var x) g vars level rl).2.1.data m = g.data m) ∧
      (addAstNodeToGraph (.var x) g vars level rl).2.2 = vars) := by
  constructor
  · intro hera
    unfold addAstNodeToGraph
    rw [hget]
    dsimp only
    rw [if_pos hera]
    dsimp only
    refine ⟨rfl, rfl, ?_, ?_, ?_, ?_, rfl⟩
    · show ((link (pushNode (removeNode g (reciprocal g vd.nodePort).1)
          { type := .repIn, ports := [],
            label := .rep (if rl then 0 else vd.level + 1) .unpaired,
            levelDeltas := [level - (vd.level + 1)] }) vd.nodePort (g.fresh, 0)).data
          g.fresh).type = NodeType.repIn
      rw [data_link_fst _ _ _ hfresh, type_setPort]
      simp [pushNode, removeNode]
    · show ((link (pushNode (removeNode g (reciprocal g vd.nodePort).1)
          { type := .repIn, ports := [],
            label := .rep (if rl then 0 else vd.level + 1) .unpaired,
            levelDeltas := [level - (vd.level + 1)] }) vd.nodePort (g.fresh, 0)).data
          g.fresh).levelDeltas = [level - (vd.level + 1)]
      rw [data_link_fst _ _ _ hfresh, levelDeltas_setPort]
      simp [pushNode, removeNode]
    · show ((link (pushNode (removeNode g (reciprocal g vd.nodePort).1)
          { type := .repIn, ports := [],
            label := .rep (if rl then 0 else vd.level + 1) .unpaired,
            levelDeltas := [level - (vd.level + 1)] }) vd.nodePort (g.fresh, 0)).data
          g.fresh).ports = [vd.nodePort]
      rw [data_link_fst _ _ _ hfresh]
      have hX : (pushNode (removeNode g (reciprocal g vd.nodePort).1)
          { type := .repIn, ports := [],
            label := .rep (if rl then 0 else vd.level + 1) .unpaired,
            levelDeltas := [level - (vd.level + 1)] }).data g.fresh =
          { type := .repIn, ports := [],
            label := .rep (if rl then 0 else vd.level + 1) .unpaired,
            levelDeltas := [level - (vd.level + 1)] } := by
        simp [pushNode, removeNode]
      rw [hX]
      rfl
    · show getP (link (pushNode (removeNode g (reciprocal g vd.nodePort).1)
          { type := .repIn, ports := [],
            label := .rep (if rl then 0 else vd.level + 1) .unpaired,
            levelDeltas := [level - (vd.level + 1)] }) vd.nodePort (g.fresh, 0))
          vd.nodePort.1 vd.nodePort.2 = (g.fresh, 0)
      rw [getP_link]
      have hne : ((vd.nodePort.1, vd.nodePort.2) : Port) ≠ ((g.fresh : Nat), (0 : Nat)) := by
        intro hc
        exact hfresh (congrArg Prod.fst hc)
      rw [if_neg hne, if_pos (Prod.mk.eta)]
  · intro hrep
    unfold addAstNodeToGraph
    rw [hget]
    dsimp only
    rw [if_neg hrep]
    dsimp only
    refine ⟨?_, rfl, ?_, ?_, ?_, ?_, rfl⟩
    · simp [data_setData]
    · simp [data_setData]
    · simp [data_setData]
    · simp [data_setData]
    · intro m hm
      simp [data_setData, hm]

/-- A binder about to see the first use of its variable: abstraction node 0
(`λx`) whose variable port 2 is wired to its initial eraser, node 1. -/
def gC3 : Graph :=
  { nodes := [0, 1]
    data := fun n =>
      if n = 0 then { type := .abs, label := .name "λx", ports := [(0, 0), (0, 0), (1, 0)] }
      else if n = 1 then { type := .era, label := .name "era", ports := [(0, 2)] }
      else emptyNode
    fresh := 2 }

/-- The variable map at that point: `x` bound at level 0 through port
`(0, 2)`. -/
def varsC3 : Vars := [("x", { level := 0, nodePort := (0, 2) })]

/-- Witness for C3: compiling a first use of `x` at level 2 yields the
fresh fan-in (id 2) with the single level delta `2 - (0 + 1)`. -/
theorem compile_var_replicator_wiring_witness :
    (addAstNodeToGraph (.var "x") gC3 varsC3 2 false).1 = (2, 1) ∧
    ((addAstNodeToGraph (.var "x") gC3 varsC3 2 false).2.1.data 2).type = .repIn ∧
    ((addAstNodeToGraph (.var "x") gC3 varsC3 2 false).2.1.data 2).levelDeltas = [2 - (0 + 1)] := by
  have h := (compile_var_replicator_wiring gC3 varsC3 2 false "x"
    { level := 0, nodePort := (0, 2) } (by decide) (by decide)).1 (by decide)
  exact ⟨h.1, h.2.2.1, h.2.2.2.1⟩

/-! ## C7: the linear scanner -/

/-- C7: under the linear discipline, on a graph with the structure
compilation of a linear term produces — reciprocal wiring, no erasers or
replicators, no abstraction-abstraction or application-application
principal pairs — every redex the scanner returns is an
abstraction-application active pair with `optimal == true`. -/
theorem linear_redexes_optimal_beta (g : Graph) (rl : Bool) (rs : List Redex)
    (hwf : Wf g)
    (hlen : ∀ n ∈ g.nodes, 0 < (g.data n).ports.length)
    (hnoer : ∀ n ∈ g.nodes, (g.data n).type ≠ .era ∧ (g.data n).type ≠ .repIn ∧
      (g.data n).type ≠ .repOut)
    (hhomo : ∀ n ∈ g.nodes, (getP g n 0).2 = 0 →
      ((g.data n).type = .abs → (g.data (getP g n 0).1).type ≠ .abs) ∧
      ((g.data n).type = .app → (g.data (getP g n 0).1).type ≠ .app))
    (h : getRedexes g .linear rl = some rs) (r : Redex) (hr : r ∈ rs) :
    r.optimal = true ∧
    getP g r.a 0 = (r.b, 0) ∧ getP g r.b 0 = (r.a, 0) ∧
    (((g.data r.a).type = .abs ∧ (g.data r.b).type = .app) ∨
     ((g.data r.a).type = .app ∧ (g.data r.b).type = .abs)) := by
  obtain ⟨n, hn, hC⟩ := mem_getRedexes_linear h hr
  obtain ⟨ha, hb, hpp0, hopt, _, h1, h2, h3, h4⟩ := hC
  obtain ⟨_, _, hrec⟩ := hwf
  subst ha
  obtain ⟨hmem, _, hback⟩ := hrec r.a hn 0 (hlen r.a hn)
  rw [hpp0] at hback
  rw [← hb] at hmem hback
  have hppeq : getP g r.a 0 = (r.b, 0) := by
    have heta : getP g r.a 0 = ((getP g r.a 0).1, (getP g r.a 0).2) := Prod.mk.eta.symm
    rw [heta, hpp0, ← hb]
  refine ⟨hopt, hppeq, hback, ?_⟩
  have htypes : ∀ m ∈ g.nodes, (g.data m).type ≠ .root → (g.data m).type ≠ .var →
      (g.data m).type = .abs ∨ (g.data m).type = .app := by
    intro m hm hmr hmv
    obtain ⟨he, hri, hro⟩ := hnoer m hm
    cases hty : (g.data m).type with
    | abs => exact Or.inl rfl
    | app => exact Or.inr rfl
    | repIn => exact absurd hty hri
    | repOut => exact absurd hty hro
    | era => exact absurd hty he
    | var => exact absurd hty hmv
    | root => exact absurd hty hmr
  have hhomo2 := hhomo r.a hn hpp0
  rw [← hb] at hhomo2
  rcases htypes r.a hn h1 h2 with hta | hta <;>
    rcases htypes r.b hmem h3 h4 with htb | htb
  · exact absurd htb (hhomo2.1 hta)
  · exact Or.inl ⟨hta, htb⟩
  · exact Or.inr ⟨hta, htb⟩
  · exact absurd htb (hhomo2.2 hta)

/-- The compiled linear graph of `(λx.x) u`: root 0, application 1,
abstraction 2 (identity, variable wired straight to body after replicator
splicing), free variable 3. -/
def gLin : Graph :=
  { nodes := [0, 1, 2, 3]
    data := fun n =>
      if n = 0 then { type := .root, label := .name "root", ports := [(1, 1)] }
      else if n = 1 then { type := .app, label := .name "@", ports := [(2, 0), (0, 0), (3, 0)] }
      else if n = 2 then { type := .abs, label := .name "λx", ports := [(1, 0), (2, 2), (2, 1)] }
      else if n = 3 then { type := .var, label := .name "u", ports := [(1, 2)] }
      else emptyNode
    fresh := 4 }

/-- The concrete redex list the linear scanner returns on `gLin`. -/
def rsLin : List Redex :=
  (getRedexes gLin .linear false).getD []

/-- Witness for C7 on the concrete linear beta redex of `gLin`. -/
theorem linear_redexes_optimal_beta_witness :
    rsLin.map projRedex = [(1, 2, true)] ∧
    ∀ r ∈ rsLin, r.optimal = true ∧
      getP gLin r.a 0 = (r.b, 0) ∧ getP gLin r.b 0 = (r.a, 0) ∧
      (((gLin.data r.a).type = .abs ∧ (gLin.data r.b).type = .app) ∨
       ((gLin.data r.a).type = .app ∧ (gLin.data r.b).type = .abs)) := by
  refine ⟨by decide, fun r hr => ?_⟩
  exact linear_redexes_optimal_beta gLin false rsLin (by decide) (by decide) (by decide)
    (by decide) rfl r hr

/-! ## C6: each unordered pair appears at most once -/

/-- Two redexes hold the same unordered node pair. -/
def samePair (r s : Redex) : Prop :=
  (r.a = s.a ∧ r.b = s.b) ∨ (r.a = s.b ∧ r.b = s.a)

/-- No two entries of the list hold the same unordered node pair. -/
def noDupPairs (rs : List Redex) : Prop :=
  rs.Pairwise (fun r s => ¬ samePair r s)

lemma samePair_comm {r s : Redex} (h : samePair r s) : samePair s r := by
  rcases h with ⟨h1, h2⟩ | ⟨h1, h2⟩
  · exact Or.inl ⟨h1.symm, h2.symm⟩
  · exact Or.inr ⟨h2.symm, h1.symm⟩

lemma pairEq_iff_samePair (a b : Nat) (r : Redex) (o : Bool) (f : Graph → Option Graph) :
    pairEq a b r = true ↔ samePair r { a := a, b := b, optimal := o, reduce := f } := by
  simp [pairEq, samePair]

lemma pairwise_createRedex (st : ScanState) (a b : Nat) (o : Bool) (f : Graph → Option Graph)
    (hp : noDupPairs st.redexes) : noDupPairs (createRedex st a b o f).redexes := by
  unfold createRedex
  cases hfind : st.redexes.find? (pairEq a b) with
  | some r =>
    dsimp only
    split
    · exact hp
    · exact hp
  | none =>
    dsimp only
    unfold noDupPairs
    rw [List.pairwise_append]
    refine ⟨hp, List.pairwise_singleton _ _, ?_⟩
    intro r hr s hs hsame
    rw [List.mem_singleton] at hs
    subst hs
    have := List.find?_eq_none.mp hfind r hr
    rw [pairEq_iff_samePair a b r o (guardReduce a b f)] at this
    exact this hsame

lemma pairwise_processPP {g : Graph} {rl : Bool} {st : ScanState} {n : Nat}
    (hp : noDupPairs st.redexes) : noDupPairs (processPP g rl st n).redexes := by
  unfold processPP
  dsimp only
  split
  · exact hp
  · split
    · exact pairwise_createRedex _ _ _ _ _ hp
    · split
      · exact pairwise_createRedex _ _ _ _ _ hp
      · split
        · exact pairwise_createRedex _ _ _ _ _ hp
        · split
          · exact pairwise_createRedex _ _ _ _ _ hp
          · split
            · split
              · exact pairwise_createRedex _ _ _ _ _ hp
              · exact pairwise_createRedex _ _ _ _ _ hp
            · exact hp

lemma pairwise_processMerge {g : Graph} {st : ScanState} {n : Nat}
    (hp : noDupPairs st.redexes) : noDupPairs (processMerge g st n).redexes := by
  unfold processMerge
  dsimp only
  split
  · exact pairwise_createRedex _ _ _ _ _ hp
  · split
    · exact pairwise_createRedex _ _ _ _ _ hp
    · exact hp

lemma noDupPairs_errIte (c : Bool) (st : ScanState) (msg : String)
    (hp : noDupPairs st.redexes) :
    noDupPairs (if c = true then { st with errors := st.errors ++ [msg] } else st).redexes := by
  rw [redexes_errIte]
  exact hp

lemma pairwise_processNodeFull {g : Graph} {sys : SystemType} {rl : Bool} {st : ScanState}
    {n : Nat} (hp : noDupPairs st.redexes) :
    noDupPairs (processNodeFull g sys rl st n).redexes := by
  unfold processNodeFull
  dsimp only
  split
  · exact pairwise_processPP (noDupPairs_errIte _ _ _ hp)
  · split
    · exact pairwise_processMerge (noDupPairs_errIte _ _ _ hp)
    · split
      · exact pairwise_createRedex _ _ _ _ _ (noDupPairs_errIte _ _ _ hp)
      · exact noDupPairs_errIte _ _ _ hp

lemma pairwise_processNodeLinear {g : Graph} {st : ScanState} {n : Nat}
    (hp : noDupPairs st.redexes) : noDupPairs (processNodeLinear g st n).redexes := by
  unfold processNodeLinear
  dsimp only
  split
  · split
    · exact noDupPairs_errIte _ _ _ (noDupPairs_errIte _ _ _ hp)
    · exact pairwise_createRedex _ _ _ _ _
        (noDupPairs_errIte _ _ _ (noDupPairs_errIte _ _ _ (noDupPairs_errIte _ _ _ hp)))
  · exact hp

lemma pairwise_foldl {α : Type} (f : ScanState → α → ScanState)
    (hf : ∀ st x, noDupPairs st.redexes → noDupPairs (f st x).redexes)
    (l : List α) (st : ScanState) (hp : noDupPairs st.redexes) :
    noDupPairs (l.foldl f st).redexes := by
  induction l generalizing st with
  | nil => exact hp
  | cons x rest ih => exact ih (f st x) (hf st x hp)

/-- Pointwise shape equality preserves pair distinctness. -/
lemma noDupPairs_of_forall₂ {l1 l2 : List Redex} (h : List.Forall₂ shapeEq l1 l2)
    (hp : noDupPairs l1) : noDupPairs l2 := by
  induction h with
  | nil => exact List.Pairwise.nil
  | cons hh ht ih =>
    rename_i x x' lr lr'
    rcases hp with _ | ⟨hx, hrest⟩
    refine List.Pairwise.cons ?_ (ih hrest)
    intro y' hy' hsame
    obtain ⟨y, hy, hys⟩ := mem_of_forall₂_shapeEq ht hy'
    refine hx y hy ?_
    rcases hsame with ⟨h1, h2⟩ | ⟨h1, h2⟩
    · exact Or.inl ⟨hh.1.symm.trans (h1.trans hys.1), hh.2.1.symm.trans (h2.trans hys.2.1)⟩
    · exact Or.inr ⟨hh.1.symm.trans (h1.trans hys.2.1), hh.2.1.symm.trans (h2.trans hys.1)⟩

lemma noDupPairs_sortOptimalFirst {rs : List Redex} (hp : noDupPairs rs) :
    noDupPairs (sortOptimalFirst rs) := by
  unfold sortOptimalFirst
  have hperm := List.filter_append_perm (fun r => r.optimal) rs
  unfold noDupPairs
  rw [(List.Perm.pairwise_iff (fun h => fun hs => h (samePair_comm hs)) hperm)]
  exact hp

/-- C6: `getRedexes` returns each unordered node pair at most once, and
`createRedex`, handed a pair already in the list, leaves the redex list
unchanged (keeping the first-seen optimality) and logs the mismatch error
exactly when the new optimality disagrees with the recorded one. -/
theorem redexes_dedup_and_mismatch_logged :
    (∀ (g : Graph) (sys : SystemType) (rl : Bool) (rs : List Redex),
      getRedexes g sys rl = some rs → noDupPairs rs) ∧
    (∀ (st : ScanState) (a b : Nat) (o : Bool) (f : Graph → Option Graph) (r : Redex),
      st.redexes.find? (pairEq a b) = some r →
      (createRedex st a b o f).redexes = st.redexes ∧
      (createRedex st a b o f).errors =
        (if r.optimal != o then st.errors ++ ["mismatching optimality for redex"]
         else st.errors)) := by
  constructor
  · intro g sys rl rs h
    by_cases hsys : (sys == SystemType.linear) = true
    · have hlin : sys = .linear := by
        cases sys <;> simp_all
      subst hlin
      unfold getRedexes at h
      rw [if_pos (by rfl)] at h
      have hrs := (Option.some.injEq _ _).mp h
      subst hrs
      exact pairwise_foldl _ (fun st x hp => pairwise_processNodeLinear hp) g.nodes {}
        List.Pairwise.nil
    · unfold getRedexes at h
      rw [if_neg (by simp_all)] at h
      cases hfind : g.nodes.find? (fun m => (g.data m).type == .root) with
      | none =>
        rw [hfind] at h
        cases h
      | some rootNode =>
        rw [hfind] at h
        dsimp only at h
        have hrs := (Option.some.injEq _ _).mp h
        subst hrs
        have h0 : noDupPairs (g.nodes.foldl (processNodeFull g sys rl) {}).redexes :=
          pairwise_foldl _ (fun st x hp => pairwise_processNodeFull hp) g.nodes {}
            List.Pairwise.nil
        have h1 := noDupPairs_of_forall₂ (traverse_shape g (g.nodes.length + 2)
          { visited := [], firstAuxFan := none,
            redexes := (g.nodes.foldl (processNodeFull g sys rl) {}).redexes }
          (getP g rootNode 0)) h0
        have h2 : noDupPairs (if (traverse g (g.nodes.length + 2)
            { visited := [], firstAuxFan := none,
              redexes := (g.nodes.foldl (processNodeFull g sys rl) {}).redexes }
            (getP g rootNode 0)).1 == false then
            match (traverse g (g.nodes.length + 2)
              { visited := [], firstAuxFan := none,
                redexes := (g.nodes.foldl (processNodeFull g sys rl) {}).redexes }
              (getP g rootNode 0)).2.firstAuxFan with
            | some ab => markOptimal (traverse g (g.nodes.length + 2)
                { visited := [], firstAuxFan := none,
                  redexes := (g.nodes.foldl (processNodeFull g sys rl) {}).redexes }
                (getP g rootNode 0)).2.redexes ab.1 ab.2
            | none => (traverse g (g.nodes.length + 2)
                { visited := [], firstAuxFan := none,
                  redexes := (g.nodes.foldl (processNodeFull g sys rl) {}).redexes }
                (getP g rootNode 0)).2.redexes
          else (traverse g (g.nodes.length + 2)
              { visited := [], firstAuxFan := none,
                redexes := (g.nodes.foldl (processNodeFull g sys rl) {}).redexes }
              (getP g rootNode 0)).2.redexes) := by
          split
          · split
            · exact noDupPairs_of_forall₂ (shapeEq_markOptimal _ _ _) h1
            · exact h1
          · exact h1
        exact noDupPairs_of_forall₂ (traverse2_shape g _ _ _) (noDupPairs_sortOptimalFirst h2)
  · intro st a b o f r hfind
    unfold createRedex
    rw [hfind]
    dsimp only
    split
    · exact ⟨rfl, rfl⟩
    · exact ⟨rfl, rfl⟩

/-- The single redex of the concrete run on `gEE`. -/
def rEE : Redex :=
  rsEE.headD { a := 0, b := 0, optimal := false, reduce := fun g' => some g' }

/-- Witness for C6: pair distinctness on the concrete run over `gEE`, and
the duplicate-call behaviour of `createRedex` at a concrete state whose
recorded optimality disagrees with the new call. -/
theorem redexes_dedup_and_mismatch_logged_witness :
    noDupPairs rsEE ∧
    (createRedex { redexes := rsEE, errors := [] } 2 3 true (fun g' => some g')).redexes = rsEE ∧
    (createRedex { redexes := rsEE, errors := [] } 2 3 true (fun g' => some g')).errors =
      ["mismatching optimality for redex"] := by
  have h2 := redexes_dedup_and_mismatch_logged.2 { redexes := rsEE, errors := [] } 2 3 true
    (fun g' => some g') rEE (by rfl)
  refine ⟨redexes_dedup_and_mismatch_logged.1 gEE .full false rsEE rfl, h2.1, ?_⟩
  rw [h2.2]
  have hopt : (rEE.optimal != true) = true := by decide
  rw [if_pos hopt]
  rfl

/-! ## Location lists of paired reads -/

lemma mem_locs_map {α : Type} (is : List α) (f f' : α → Port) (x : Port) :
    x ∈ locs (is.map (fun i => (f i, f' i))) ↔ ∃ i ∈ is, x = f i ∨ x = f' i := by
  induction is with
  | nil => simp [locs]
  | cons i rest ih =>
    simp only [List.map_cons, locs, List.mem_cons, ih]
    constructor
    · rintro (h | h | ⟨j, hj, hx⟩)
      · exact ⟨i, Or.inl rfl, Or.inl h⟩
      · exact ⟨i, Or.inl rfl, Or.inr h⟩
      · exact ⟨j, Or.inr hj, hx⟩
    · rintro ⟨j, (rfl | hj), hx⟩
      · rcases hx with hx | hx
        · exact Or.inl hx
        · exact Or.inr (Or.inl hx)
      · exact Or.inr (Or.inr ⟨j, hj, hx⟩)

lemma locs_map_nodup {α : Type} [DecidableEq α] (is : List α) (f f' : α → Port)
    (hnd : is.Nodup)
    (hff : ∀ i ∈ is, ∀ j ∈ is, f i = f j → i = j)
    (hgg : ∀ i ∈ is, ∀ j ∈ is, f' i = f' j → i = j)
    (hfg : ∀ i ∈ is, ∀ j ∈ is, f i ≠ f' j) :
    (locs (is.map (fun i => (f i, f' i)))).Nodup := by
  induction is with
  | nil => exact List.nodup_nil
  | cons i rest ih =>
    rcases hnd with _ | ⟨hi, hrest⟩
    have hmemi : i ∈ i :: rest := List.mem_cons_self _ _
    simp only [List.map_cons, locs]
    refine List.nodup_cons.mpr ⟨?_, List.nodup_cons.mpr ⟨?_, ?_⟩⟩
    · intro hmem
      rcases List.mem_cons.mp hmem with h | h
      · exact hfg i hmemi i hmemi h
      · rcases (mem_locs_map rest f f' (f i)).mp h with ⟨j, hj, hx | hx⟩
        · have hij := hff i hmemi j (List.mem_cons_of_mem _ hj) hx
          exact hi j hj hij
        · exact hfg i hmemi j (List.mem_cons_of_mem _ hj) hx
    · intro hmem
      rcases (mem_locs_map rest f f' (f' i)).mp hmem with ⟨j, hj, hx | hx⟩
      · exact hfg j (List.mem_cons_of_mem _ hj) i hmemi hx.symm
      · have hij := hgg i hmemi j (List.mem_cons_of_mem _ hj) hx
        exact hi j hj hij
    · exact ih hrest
        (fun a ha b hb => hff a (List.mem_cons_of_mem _ ha) b (List.mem_cons_of_mem _ hb))
        (fun a ha b hb => hgg a (List.mem_cons_of_mem _ ha) b (List.mem_cons_of_mem _ hb))
        (fun a ha b hb => hfg a (List.mem_cons_of_mem _ ha) b (List.mem_cons_of_mem _ hb))

lemma lookupLoc_map_fst {α : Type} (is : List α) (f f' : α → Port) (i : α) (hi : i ∈ is)
    (hff : ∀ a ∈ is, ∀ b ∈ is, f a = f b → a = b)
    (hfg : ∀ a ∈ is, ∀ b ∈ is, f a ≠ f' b) :
    lookupLoc (f i) (is.map (fun j => (f j, f' j))) = some (f' i) := by
  induction is with
  | nil => cases hi
  | cons j rest ih =>
    have hmemj : j ∈ j :: rest := List.mem_cons_self _ _
    simp only [List.map_cons, lookupLoc]
    by_cases h : f i = f j
    · rw [if_pos h]
      have := hff i hi j hmemj h
      subst this
      rfl
    · rw [if_neg h, if_neg (hfg i hi j hmemj)]
      rcases List.mem_cons.mp hi with h1 | h1
      · exact absurd (h1 ▸ rfl) h
      · exact ih h1
          (fun a ha b hb => hff a (List.mem_cons_of_mem _ ha) b (List.mem_cons_of_mem _ hb))
          (fun a ha b hb => hfg a (List.mem_cons_of_mem _ ha) b (List.mem_cons_of_mem _ hb))

lemma lookupLoc_map_snd {α : Type} (is : List α) (f f' : α → Port) (i : α) (hi : i ∈ is)
    (hgg : ∀ a ∈ is, ∀ b ∈ is, f' a = f' b → a = b)
    (hfg : ∀ a ∈ is, ∀ b ∈ is, f a ≠ f' b) :
    lookupLoc (f' i) (is.map (fun j => (f j, f' j))) = some (f i) := by
  induction is with
  | nil => cases hi
  | cons j rest ih =>
    have hmemj : j ∈ j :: rest := List.mem_cons_self _ _
    simp only [List.map_cons, lookupLoc]
    rw [if_neg (fun h => hfg j hmemj i hi h.symm)]
    by_cases h : f' i = f' j
    · rw [if_pos h]
      have := hgg i hi j hmemj h
      subst this
      rfl
    · rw [if_neg h]
      rcases List.mem_cons.mp hi with h1 | h1
      · exact absurd (h1 ▸ rfl) h
      · exact ih h1
          (fun a ha b hb => hgg a (List.mem_cons_of_mem _ ha) b (List.mem_cons_of_mem _ hb))
          (fun a ha b hb => hfg a (List.mem_cons_of_mem _ ha) b (List.mem_cons_of_mem _ hb))

/-! ## C2: `reduceAnnihilate` -/

/-- The annihilation loop only writes to the far ends, so when those are
external it equals the link sequence over the initially-read port pairs. -/
lemma annihilateLoop_stable (node other : Nat) (g : Graph) (is : List Nat)
    (h : ∀ i ∈ is, (getP g node i).1 ≠ node ∧ (getP g node i).1 ≠ other ∧
      (getP g other i).1 ≠ node ∧ (getP g other i).1 ≠ other) :
    annihilateLoop node other g is =
      linkList g (is.map (fun i => (getP g node i, getP g other i))) := by
  induction is generalizing g with
  | nil => rfl
  | cons i rest ih =>
    obtain ⟨h1, h2, h3, h4⟩ := h i (List.mem_cons_self _ _)
    have hdn : (link g (getP g node i) (getP g other i)).data node = g.data node :=
      data_link_of_ne _ _ _ _ (fun e => h1 e.symm) (fun e => h3 e.symm)
    have hdo : (link g (getP g node i) (getP g other i)).data other = g.data other :=
      data_link_of_ne _ _ _ _ (fun e => h2 e.symm) (fun e => h4 e.symm)
    have hgn : ∀ j, getP (link g (getP g node i) (getP g other i)) node j = getP g node j := by
      intro j
      show ((link g (getP g node i) (getP g other i)).data node).ports.getD j (0, 0) =
        ((g.data node).ports.getD j (0, 0))
      rw [hdn]
    have hgo : ∀ j, getP (link g (getP g node i) (getP g other i)) other j = getP g other j := by
      intro j
      show ((link g (getP g node i) (getP g other i)).data other).ports.getD j (0, 0) =
        ((g.data other).ports.getD j (0, 0))
      rw [hdo]
    rw [annihilateLoop]
    rw [ih (link g (getP g node i) (getP g other i)) (fun j hj => by
      rw [hgn j, hgo j]
      exact h j (List.mem_cons_of_mem _ hj))]
    have hmap : (rest.map (fun j => (getP (link g (getP g node i) (getP g other i)) node j,
        getP (link g (getP g node i) (getP g other i)) other j))) =
        rest.map (fun j => (getP g node j, getP g other j)) := by
      apply List.map_congr_left
      intro j _
      rw [hgn j, hgo j]
    rw [hmap]
    rfl

/-- C2 counterexample graph: nodes 1 and 2 are wired reciprocally but not
principal-to-principal (port 0 of each meets port 1 of the other), with
equal port counts. -/
def gC2bad : Graph :=
  { nodes := [1, 2]
    data := fun n =>
      if n = 1 then { type := .abs, label := .name "a", ports := [(2, 1), (2, 0)] }
      else if n = 2 then { type := .abs, label := .name "b", ports := [(1, 1), (1, 0)] }
      else emptyNode
    fresh := 3 }

/-- C2 counterexample: `reduceAnnihilate` on two nodes that are *not*
mutually connected at their principal ports (only node-level mutual) does
not throw and does mutate the graph, because the guard only checks
`other.ports[0].node === node`, never the port index. -/
theorem annihilate_guard_counterexample :
    getP gC2bad 1 0 ≠ (2, 0) ∧
    (reduceAnnihilate 1 gC2bad).isSome = true ∧
    (reduceAnnihilate 1 gC2bad).map (fun h => h.nodes) = some [] := by
  decide

/-- C2 (amended): `reduceAnnihilate` throws exactly when the partner's
principal-port entry names a different node, or the port counts differ —
the guard never inspects the port index of `node.ports[0]`.  Called on a
genuine principal-to-principal pair of distinct nodes with equal port
counts and auxiliary far ends outside the pair, it returns a graph in
which the former far ends of `node.ports[i]` and `other.ports[i]` are
linked for every `i ≥ 1`, exactly the two nodes are removed, and every
other node stays. -/
theorem annihilate_spec :
    (∀ (node : Nat) (g : Graph),
      reduceAnnihilate node g = none ↔
        ((getP g (getP g node 0).1 0).1 ≠ node ∨
         (g.data node).ports.length ≠ (g.data (getP g node 0).1).ports.length)) ∧
    (∀ (node other : Nat) (g : Graph), Wf g →
      node ∈ g.nodes → other ∈ g.nodes → node ≠ other →
      getP g node 0 = (other, 0) → getP g other 0 = (node, 0) →
      (g.data node).ports.length = (g.data other).ports.length →
      0 < (g.data node).ports.length →
      (∀ i, 1 ≤ i → i < (g.data node).ports.length →
        (getP g node i).1 ≠ node ∧ (getP g node i).1 ≠ other ∧
        (getP g other i).1 ≠ node ∧ (getP g other i).1 ≠ other) →
      ∃ g', reduceAnnihilate node g = some g' ∧
        g'.nodes = g.nodes.filter (fun m => m ≠ node && m ≠ other) ∧
        (∀ m, m ∈ g.nodes → m ≠ node → m ≠ other → m ∈ g'.nodes) ∧
        (∀ i, 1 ≤ i → i < (g.data node).ports.length →
          getP g' (getP g node i).1 (getP g node i).2 = getP g other i ∧
          getP g' (getP g other i).1 (getP g other i).2 = getP g node i)) := by
  constructor
  · intro node g
    unfold reduceAnnihilate
    by_cases h1 : (getP g (getP g node 0).1 0).1 ≠ node
    · rw [if_pos h1]
      simp [h1]
    · rw [if_neg h1]
      by_cases h2 : (g.data node).ports.length ≠ (g.data (getP g node 0).1).ports.length
      · rw [if_pos h2]
        simp [h2]
      · rw [if_neg h2]
        simp [h1, h2]
  · intro node other g hwf hnode hother hne hpp1 hpp2 hleneq hlen0 hext
    have hother1 : (getP g node 0).1 = other := by rw [hpp1]
    obtain ⟨_, _, hrec⟩ := hwf
    set is := List.range' 1 ((g.data node).ports.length - 1) with his
    have hmem_is : ∀ i, i ∈ is → 1 ≤ i ∧ i < (g.data node).ports.length := by
      intro i hi
      rw [his, List.mem_range'] at hi
      omega
    set pairs := is.map (fun i => (getP g node i, getP g other i)) with hpairs
    have hstable := annihilateLoop_stable node other g is (fun i hi => by
      obtain ⟨hb1, hb2⟩ := hmem_is i hi
      exact hext i hb1 hb2)
    -- injectivity of the read maps, from reciprocity
    have hinjf : ∀ a ∈ is, ∀ b ∈ is, getP g node a = getP g node b → a = b := by
      intro a ha b hb hfab
      obtain ⟨ha1, ha2⟩ := hmem_is a ha
      obtain ⟨hb1, hb2⟩ := hmem_is b hb
      have hra := (hrec node hnode a ha2).2.2
      have hrb := (hrec node hnode b hb2).2.2
      rw [hfab] at hra
      rw [hra] at hrb
      exact congrArg Prod.snd hrb
    have hinjg : ∀ a ∈ is, ∀ b ∈ is, getP g other a = getP g other b → a = b := by
      intro a ha b hb hfab
      obtain ⟨ha1, ha2⟩ := hmem_is a ha
      obtain ⟨hb1, hb2⟩ := hmem_is b hb
      have hra := (hrec other hother a (by rw [← hleneq]; exact ha2)).2.2
      have hrb := (hrec other hother b (by rw [← hleneq]; exact hb2)).2.2
      rw [hfab] at hra
      rw [hra] at hrb
      exact congrArg Prod.snd hrb
    have hinjfg : ∀ a ∈ is, ∀ b ∈ is, getP g node a ≠ getP g other b := by
      intro a ha b hb hfab
      obtain ⟨ha1, ha2⟩ := hmem_is a ha
      obtain ⟨hb1, hb2⟩ := hmem_is b hb
      have hra := (hrec node hnode a ha2).2.2
      have hrb := (hrec other hother b (by rw [← hleneq]; exact hb2)).2.2
      rw [hfab] at hra
      rw [hra] at hrb
      exact hne (congrArg Prod.fst hrb)
    have hnd : (locs pairs).Nodup := by
      rw [hpairs]
      exact locs_map_nodup is _ _
        (by rw [his]; exact List.nodup_range' 1 ((g.data node).ports.length - 1))
        hinjf hinjg hinjfg
    have hnodes : (annihilateLoop node other g is).nodes = g.nodes := by
      rw [hstable]
      exact nodes_linkList g pairs
    refine ⟨{ annihilateLoop node other g is with
        nodes := (annihilateLoop node other g is).nodes.filter
          (fun m => m ≠ node && m ≠ other) }, ?_, ?_, ?_, ?_⟩
    · unfold reduceAnnihilate
      rw [hother1]
      rw [if_neg (by rw [hpp2]; exact fun hc => hc rfl)]
      rw [if_neg (fun hc => hc hleneq)]
    · show ((annihilateLoop node other g is).nodes.filter (fun m => m ≠ node && m ≠ other)) =
        g.nodes.filter (fun m => m ≠ node && m ≠ other)
      rw [hnodes]
    · intro m hm hm1 hm2
      show m ∈ (annihilateLoop node other g is).nodes.filter (fun m => m ≠ node && m ≠ other)
      rw [hnodes, List.mem_filter]
      exact ⟨hm, by simp [hm1, hm2]⟩
    · intro i hi1 hi2
      have hmem : i ∈ is := by
        rw [his, List.mem_range']
        exact ⟨i - 1, by omega, by omega⟩
      constructor
      · show getP { annihilateLoop node other g is with
            nodes := (annihilateLoop node other g is).nodes.filter
              (fun m => m ≠ node && m ≠ other) } (getP g node i).1 (getP g node i).2 = _
        have : ∀ n j, getP { annihilateLoop node other g is with
            nodes := (annihilateLoop node other g is).nodes.filter
              (fun m => m ≠ node && m ≠ other) } n j = getP (annihilateLoop node other g is) n j :=
          fun n j => rfl
        rw [this, hstable, getP_linkList g pairs hnd]
        rw [hpairs]
        rw [lookupLoc_map_fst is _ _ i hmem hinjf hinjfg]
        rfl
      · show getP { annihilateLoop node other g is with
            nodes := (annihilateLoop node other g is).nodes.filter
              (fun m => m ≠ node && m ≠ other) } (getP g other i).1 (getP g other i).2 = _
        have : ∀ n j, getP { annihilateLoop node other g is with
            nodes := (annihilateLoop node other g is).nodes.filter
              (fun m => m ≠ node && m ≠ other) } n j = getP (annihilateLoop node other g is) n j :=
          fun n j => rfl
        rw [this, hstable, getP_linkList g pairs hnd]
        rw [hpairs]
        rw [lookupLoc_map_snd is _ _ i hmem hinjg hinjfg]
        rfl

/-- Witness for C2 (amended) on the eraser-eraser active pair of `gEE`. -/
theorem annihilate_spec_witness :
    (reduceAnnihilate 5 gEE = none ↔
      ((getP gEE (getP gEE 5 0).1 0).1 ≠ 5 ∨
       (gEE.data 5).ports.length ≠ (gEE.data (getP gEE 5 0).1).ports.length)) ∧
    ∃ g', reduceAnnihilate 2 gEE = some g' ∧
      g'.nodes = gEE.nodes.filter (fun m => m ≠ 2 && m ≠ 3) ∧
      (∀ m, m ∈ gEE.nodes → m ≠ 2 → m ≠ 3 → m ∈ g'.nodes) ∧
      (∀ i, 1 ≤ i → i < (gEE.data 2).ports.length →
        getP g' (getP gEE 2 i).1 (getP gEE 2 i).2 = getP gEE 3 i ∧
        getP g' (getP gEE 3 i).1 (getP gEE 3 i).2 = getP gEE 2 i) := by
  refine ⟨annihilate_spec.1 5 gEE, ?_⟩
  exact annihilate_spec.2 2 3 gEE (by decide) (by decide) (by decide) (by decide)
    (by decide) (by decide) (by decide) (by decide)
    (fun i h1 h2 => by
      rw [show (gEE.data 2).ports.length = 1 from rfl] at h2
      exact absurd h1 (by omega))

/-! ## C5: `reduceMerge` (replicator merge) -/

lemma set_getD_self {α : Type} (l : List α) (i : Nat) (d : α) (h : i < l.length) :
    l.set i (l.getD i d) = l := by
  apply List.ext_getElem?
  intro j
  rw [List.getElem?_set]
  split
  · rename_i hj
    subst hj
    simp [List.getD_eq_getElem?_getD, List.getElem?_eq_getElem h]
  · rfl

/-- Writing a port slot back with its own current value is a no-op. -/
lemma setPort_getD_self (r : NodeRec) (i : Nat) (h : i < r.ports.length) :
    setPort r i (r.ports.getD i (0, 0)) = r := by
  unfold setPort
  rw [show i + 1 - r.ports.length = 0 from by omega, List.replicate_zero, List.append_nil,
    set_getD_self r.ports i _ h]

lemma zip_map_fst_snd {α β : Type} (l : List (α × β)) :
    (l.map Prod.fst).zip (l.map Prod.snd) = l := by
  induction l with
  | nil => rfl
  | cons x rest ih => simp [ih]

/-- The relink loop of `reduceMerge` (`ports.forEach((p, i) => link(p,
{node: first, port: i}))`): each step writes `first`'s own slot back with
its current value, so when all far ends are on other nodes the loop equals
the link sequence over the initially-read pairs and leaves `first`'s
record unchanged. -/
lemma relinkLoop_stable (first : Nat) (g : Graph) (is : List Nat)
    (hlt : ∀ i ∈ is, i < (g.data first).ports.length)
    (hext : ∀ i ∈ is, (getP g first i).1 ≠ first) :
    is.foldl (fun h i => link h (getP h first i) (first, i)) g =
      linkList g (is.map (fun i => (getP g first i, ((first, i) : Port)))) ∧
    (is.foldl (fun h i => link h (getP h first i) (first, i)) g).data first = g.data first := by
  induction is generalizing g with
  | nil => exact ⟨rfl, rfl⟩
  | cons i rest ih =>
    have h1 : (getP g first i).1 ≠ first := hext i (List.mem_cons_self _ _)
    have hi : i < (g.data first).ports.length := hlt i (List.mem_cons_self _ _)
    have hd : (link g (getP g first i) (first, i)).data first =
        setPort (g.data first) i (getP g first i) :=
      data_link_fst g (getP g first i) (first, i) h1
    have hd2 : (link g (getP g first i) (first, i)).data first = g.data first := by
      rw [hd]
      exact setPort_getD_self (g.data first) i hi
    have hgp : ∀ j, getP (link g (getP g first i) (first, i)) first j = getP g first j := by
      intro j
      show ((link g (getP g first i) (first, i)).data first).ports.getD j (0, 0) = _
      rw [hd2]
      rfl
    have hrec := ih (link g (getP g first i) (first, i))
      (fun j hj => by rw [hd2]; exact hlt j (List.mem_cons_of_mem _ hj))
      (fun j hj => by rw [hgp j]; exact hext j (List.mem_cons_of_mem _ hj))
    constructor
    · simp only [List.foldl_cons]
      rw [hrec.1]
      rw [List.map_congr_left (fun j (_ : j ∈ rest) => by
        rw [hgp j] :
        ∀ j ∈ rest, (getP (link g (getP g first i) (first, i)) first j, ((first, j) : Port)) =
          (getP g first j, ((first, j) : Port)))]
      rfl
    · simp only [List.foldl_cons]
      rw [hrec.2, hd2]

/-- C5: the merge of two adjacent unpaired replicators.  `reduceMerge`
removes `second` (and only `second`) from the node array; assigns `first`
the spliced arrays — `second`\'s auxiliary ports, and its level deltas
each offset by the connecting delta, in place of the connecting port —
with the auxiliary ports reordered so the level deltas are ascending
(`sorted`/`perm` conjuncts); keeps the principal port; and relinks every
port of `first`, restoring reciprocity at each of them. -/
theorem merge_spec :
    ∀ (first second secondPort : Nat) (delta : Int) (g : Graph),
      first ≠ second →
      1 ≤ secondPort →
      secondPort < (g.data first).ports.length →
      getP g first secondPort = (second, 0) →
      getP g second 0 = (first, secondPort) →
      delta = (g.data first).levelDeltas.getD (secondPort - 1) 0 →
      (mergeNewPorts first second secondPort delta g).Nodup →
      (∀ p ∈ mergeNewPorts first second secondPort delta g, p.1 ≠ first) →
      ((reduceMerge first second secondPort delta g).nodes =
        g.nodes.filter (fun m => m ≠ second)) ∧
      ((reduceMerge first second secondPort delta g).data first).ports =
        mergeNewPorts first second secondPort delta g ∧
      ((reduceMerge first second secondPort delta g).data first).levelDeltas =
        (mergeSorted first second secondPort delta g).map Prod.snd ∧
      List.Sorted (fun a b => a ≤ b)
        ((reduceMerge first second secondPort delta g).data first).levelDeltas ∧
      List.Perm
        ((((reduceMerge first second secondPort delta g).data first).ports.drop 1).zip
          (((reduceMerge first second secondPort delta g).data first).levelDeltas))
        (((mergePorts1 first second secondPort g).drop 1).zip
          (mergeLds1 first second secondPort delta g)) ∧
      getP (reduceMerge first second secondPort delta g) first 0 = getP g first 0 ∧
      (∀ i, i < (mergeNewPorts first second secondPort delta g).length →
        getP (reduceMerge first second secondPort delta g)
          (getP (reduceMerge first second secondPort delta g) first i).1
          (getP (reduceMerge first second secondPort delta g) first i).2 = (first, i)) := by
  intro first second secondPort delta g hfs hsp1 hspL hadj1 hadj2 hdelta hnd hext
  set np := mergeNewPorts first second secondPort delta g with hnpdef
  set srt := mergeSorted first second secondPort delta g with hsrtdef
  set g1 := setData g first
    { g.data first with
      ports := np
      levelDeltas := srt.map Prod.snd } with hg1
  have hred : reduceMerge first second secondPort delta g =
      removeNode ((List.range np.length).foldl
        (fun h i => link h (getP h first i) (first, i)) g1) second := rfl
  have hd1 : g1.data first =
      { g.data first with ports := np, levelDeltas := srt.map Prod.snd } := by
    rw [hg1, data_setData, if_pos rfl]
  have hgp1 : ∀ j, getP g1 first j = np.getD j (0, 0) := by
    intro j
    show (g1.data first).ports.getD j (0, 0) = _
    rw [hd1]
  have hlen1 : (g1.data first).ports.length = np.length := by rw [hd1]
  have hgetDmem : ∀ i, i < np.length → np.getD i (0, 0) ∈ np := by
    intro i hi
    rw [List.getD_eq_getElem?_getD, List.getElem?_eq_getElem hi]
    exact List.getElem_mem hi
  obtain ⟨heq, hdf⟩ := relinkLoop_stable first g1 (List.range np.length)
    (fun i hi => by rw [hlen1]; exact List.mem_range.mp hi)
    (fun i hi => by
      rw [hgp1 i]
      exact hext _ (hgetDmem i (List.mem_range.mp hi)))
  set pairs := (List.range np.length).map
    (fun i => (getP g1 first i, ((first, i) : Port))) with hpairs
  have hff : ∀ a ∈ List.range np.length, ∀ b ∈ List.range np.length,
      getP g1 first a = getP g1 first b → a = b := by
    intro a ha b hb hab
    have ha1 := List.mem_range.mp ha
    have hb1 := List.mem_range.mp hb
    rw [hgp1 a, hgp1 b, List.getD_eq_getElem?_getD, List.getD_eq_getElem?_getD,
      List.getElem?_eq_getElem ha1, List.getElem?_eq_getElem hb1] at hab
    simp only [Option.getD_some] at hab
    exact (List.Nodup.getElem_inj_iff hnd).mp hab
  have hgg : ∀ a ∈ List.range np.length, ∀ b ∈ List.range np.length,
      ((first, a) : Port) = (first, b) → a = b :=
    fun a _ b _ h => congrArg Prod.snd h
  have hfg : ∀ a ∈ List.range np.length, ∀ b ∈ List.range np.length,
      getP g1 first a ≠ ((first, b) : Port) := by
    intro a ha b _ hc
    have h1 : (getP g1 first a).1 ≠ first := by
      rw [hgp1 a]
      exact hext _ (hgetDmem a (List.mem_range.mp ha))
    exact h1 (congrArg Prod.fst hc)
  have hlocnd : (locs pairs).Nodup := by
    rw [hpairs]
    exact locs_map_nodup _ _ _ (List.nodup_range _) hff hgg hfg
  have hdataf : (reduceMerge first second secondPort delta g).data first =
      { g.data first with ports := np, levelDeltas := srt.map Prod.snd } := by
    rw [hred]
    show ((List.range np.length).foldl
      (fun h i => link h (getP h first i) (first, i)) g1).data first = _
    rw [hdf, hd1]
  have hports : ((reduceMerge first second secondPort delta g).data first).ports = np := by
    rw [hdataf]
  have hlds : ((reduceMerge first second secondPort delta g).data first).levelDeltas =
      srt.map Prod.snd := by
    rw [hdataf]
  have hsorted : List.Sorted (fun a b => a ≤ b)
      ((reduceMerge first second secondPort delta g).data first).levelDeltas := by
    rw [hlds]
    have hp : srt.Pairwise (fun x y => x.2 ≤ y.2) := by
      rw [hsrtdef]
      exact @List.sorted_insertionSort (Port × Int) (fun x y => x.2 ≤ y.2) _
        ⟨fun a b => le_total a.2 b.2⟩ ⟨fun _ _ _ hab hbc => le_trans hab hbc⟩ _
    exact List.pairwise_map.mpr hp
  have hdrop : np.drop 1 = srt.map Prod.fst := by
    rw [hnpdef, hsrtdef]
    rfl
  have hperm : List.Perm
      ((((reduceMerge first second secondPort delta g).data first).ports.drop 1).zip
        (((reduceMerge first second secondPort delta g).data first).levelDeltas))
      (((mergePorts1 first second secondPort g).drop 1).zip
        (mergeLds1 first second secondPort delta g)) := by
    rw [hports, hlds, hdrop, zip_map_fst_snd, hsrtdef]
    exact List.perm_insertionSort _ _
  have hp0 : getP (reduceMerge first second secondPort delta g) first 0 = getP g first 0 := by
    show ((reduceMerge first second secondPort delta g).data first).ports.getD 0 (0, 0) = _
    rw [hdataf]
    show np.getD 0 (0, 0) = _
    rw [hnpdef]
    show (mergePorts1 first second secondPort g).getD 0 (0, 0) = _
    unfold mergePorts1 getP
    have hta : 0 < ((g.data first).ports.take secondPort).length := by
      rw [List.length_take]
      omega
    rw [List.getD_eq_getElem?_getD, List.getD_eq_getElem?_getD,
      List.getElem?_append, if_pos (by rw [List.length_append]; omega),
      List.getElem?_append, if_pos hta,
      List.getElem?_take, if_pos (by omega)]
  have hrecip : ∀ i, i < np.length →
      getP (reduceMerge first second secondPort delta g)
        (getP (reduceMerge first second secondPort delta g) first i).1
        (getP (reduceMerge first second secondPort delta g) first i).2 = (first, i) := by
    intro i hi
    have hfi : getP (reduceMerge first second secondPort delta g) first i = getP g1 first i := by
      show ((reduceMerge first second secondPort delta g).data first).ports.getD i (0, 0) = _
      rw [hdataf, hgp1 i]
    rw [hfi]
    have hdata2 : (reduceMerge first second secondPort delta g).data =
        (linkList g1 pairs).data := by
      rw [hred]
      show ((List.range np.length).foldl
        (fun h i => link h (getP h first i) (first, i)) g1).data = _
      rw [heq, hpairs]
    show ((reduceMerge first second secondPort delta g).data
      (getP g1 first i).1).ports.getD (getP g1 first i).2 (0, 0) = (first, i)
    rw [hdata2]
    show getP (linkList g1 pairs) (getP g1 first i).1 (getP g1 first i).2 = (first, i)
    rw [getP_linkList g1 pairs hlocnd, Prod.mk.eta, hpairs,
      lookupLoc_map_fst (List.range np.length) _ _ i (List.mem_range.mpr hi) hff hfg]
    rfl
  have hnodes : (reduceMerge first second secondPort delta g).nodes =
      g.nodes.filter (fun m => m ≠ second) := by
    rw [hred]
    show (((List.range np.length).foldl
      (fun h i => link h (getP h first i) (first, i)) g1).nodes).filter
        (fun m => m ≠ second) = _
    rw [heq, hpairs, nodes_linkList]
    rw [hg1]
    rfl
  exact ⟨hnodes, hports, hlds, hsorted, hperm, hp0, hrecip⟩

/-- C5 witness graph: replicators 1 (`first`) and 2 (`second`) joined at
`first`\'s auxiliary port 2 (connecting delta 2), with erasers 3-6 on the
remaining auxiliary ports. -/
def gC5 : Graph :=
  { nodes := [1, 2, 3, 4, 5, 6]
    data := fun n =>
      if n = 1 then { type := .repIn, label := .rep 0 .unpaired, ports := [(3, 0), (4, 0), (2, 0)], levelDeltas := [0, 2] }
      else if n = 2 then { type := .repIn, label := .rep 0 .unpaired, ports := [(1, 2), (5, 0), (6, 0)], levelDeltas := [1, 0] }
      else if n = 3 then { type := .era, ports := [(1, 0)] }
      else if n = 4 then { type := .era, ports := [(1, 1)] }
      else if n = 5 then { type := .era, ports := [(2, 1)] }
      else if n = 6 then { type := .era, ports := [(2, 2)] }
      else emptyNode
    fresh := 7 }

/-- Witness for C5 on `gC5`: merging replicator 2 into replicator 1 at
port 2 with connecting delta 2. -/
theorem merge_spec_witness :
    ((reduceMerge 1 2 2 2 gC5).nodes = gC5.nodes.filter (fun m => m ≠ 2)) ∧
    ((reduceMerge 1 2 2 2 gC5).data 1).ports = mergeNewPorts 1 2 2 2 gC5 ∧
    ((reduceMerge 1 2 2 2 gC5).data 1).levelDeltas = (mergeSorted 1 2 2 2 gC5).map Prod.snd ∧
    List.Sorted (fun a b => a ≤ b) ((reduceMerge 1 2 2 2 gC5).data 1).levelDeltas ∧
    List.Perm
      ((((reduceMerge 1 2 2 2 gC5).data 1).ports.drop 1).zip
        (((reduceMerge 1 2 2 2 gC5).data 1).levelDeltas))
      (((mergePorts1 1 2 2 gC5).drop 1).zip (mergeLds1 1 2 2 2 gC5)) ∧
    getP (reduceMerge 1 2 2 2 gC5) 1 0 = getP gC5 1 0 ∧
    (∀ i, i < (mergeNewPorts 1 2 2 2 gC5).length →
      getP (reduceMerge 1 2 2 2 gC5)
        (getP (reduceMerge 1 2 2 2 gC5) 1 i).1
        (getP (reduceMerge 1 2 2 2 gC5) 1 i).2 = (1, i)) :=
  merge_spec 1 2 2 2 gC5 (by decide) (by decide) (by decide) (by decide)
    (by decide) (by decide) (by decide) (by decide)

/-! ## C9: eraser-eraser pairs and the `optimal` flag -/

/-- Arity facts true of every graph the engine builds: erasers and the
root have one port, abstractions and applications three, replicators at
least one. -/
def arityOk (g : Graph) : Prop :=
  ∀ m ∈ g.nodes,
    ((g.data m).type = .era → (g.data m).ports.length = 1) ∧
    ((g.data m).type = .abs → (g.data m).ports.length = 3) ∧
    ((g.data m).type = .app → (g.data m).ports.length = 3) ∧
    ((g.data m).type = .root → (g.data m).ports.length = 1) ∧
    (isRepType (g.data m).type = true → 0 < (g.data m).ports.length)

instance (g : Graph) : Decidable (arityOk g) := by
  unfold arityOk
  infer_instance

/-- The ports the root traversals stand on: a live node, an in-range port
index, and — the key consequence of reciprocity — if the node is an
eraser, its principal partner is the non-eraser node the traversal came
from. -/
def Pre (g : Graph) (np : Port) : Prop :=
  np.1 ∈ g.nodes ∧ np.2 < (g.data np.1).ports.length ∧
  ((g.data np.1).type = .era → (g.data (getP g np.1 0).1).type ≠ .era)

/-- No eraser-eraser redex in the list is flagged optimal. -/
def EEfree (g : Graph) (rs : List Redex) : Prop :=
  ∀ r ∈ rs, (g.data r.a).type = .era → (g.data r.b).type = .era → r.optimal = false

/-- The captured `firstAuxFanReplication` pair has a replicator endpoint. -/
def faOk (g : Graph) (st : TravState) : Prop :=
  ∀ ab : Nat × Nat, st.firstAuxFan = some ab →
    isRepType (g.data ab.1).type = true ∨ isRepType (g.data ab.2).type = true

lemma repType_ne_era {t : NodeType} (h : isRepType t = true) : t ≠ .era := by
  simp only [isRepType, Bool.or_eq_true, beq_iff_eq] at h
  rcases h with h | h <;> subst h <;> simp

/-- Marking a pair with a non-eraser endpoint cannot flag an eraser-eraser
redex. -/
lemma EEfree_markOptimal {g : Graph} {rs : List Redex} {a b : Nat} (h : EEfree g rs)
    (hab : (g.data a).type ≠ .era ∨ (g.data b).type ≠ .era) :
    EEfree g (markOptimal rs a b) := by
  intro r' hr' ha hb
  unfold markOptimal at hr'
  obtain ⟨r, hrm, hre⟩ := List.mem_map.mp hr'
  by_cases hp : pairEq a b r = true
  · rw [if_pos hp] at hre
    exfalso
    unfold pairEq at hp
    simp only [Bool.or_eq_true, Bool.and_eq_true, beq_iff_eq] at hp
    subst hre
    have ha' : (g.data r.a).type = .era := ha
    have hb' : (g.data r.b).type = .era := hb
    rcases hp with ⟨h1, h2⟩ | ⟨h1, h2⟩
    · rcases hab with hc | hc
      · exact hc (h1 ▸ ha')
      · exact hc (h2 ▸ hb')
    · rcases hab with hc | hc
      · exact hc (h2 ▸ hb')
      · exact hc (h1 ▸ ha')
  · rw [if_neg hp] at hre
    subst hre
    exact h r hrm ha hb

/-- A far end read from a live node at an in-range index satisfies `Pre`
when the node itself is not an eraser. -/
lemma pre_of_child {g : Graph} (hwf : Wf g) (har : arityOk g) {n i : Nat}
    (hn : n ∈ g.nodes) (hi : i < (g.data n).ports.length)
    (hne : (g.data n).type ≠ .era) : Pre g (getP g n i) := by
  obtain ⟨_, _, hrec⟩ := hwf
  obtain ⟨hm, hr, hb⟩ := hrec n hn i hi
  refine ⟨hm, hr, ?_⟩
  intro hera
  have hlen1 : (g.data (getP g n i).1).ports.length = 1 := (har _ hm).1 hera
  have h2 : (getP g n i).2 = 0 := by omega
  rw [← h2, hb]
  exact hne

/-- All child ports of the first traversal satisfy `Pre`. -/
lemma childPorts_pre {g : Graph} (hwf : Wf g) (har : arityOk g) {np : Port}
    (hnp : Pre g np) : ∀ cp ∈ childPorts g np, Pre g cp := by
  obtain ⟨hmem, hrange, _⟩ := hnp
  intro cp hcp
  unfold childPorts at hcp
  dsimp only at hcp
  split at hcp
  · rename_i hc
    simp only [Bool.and_eq_true, beq_iff_eq] at hc
    have hty : (g.data np.1).type = .abs := hc.1
    have hne : (g.data np.1).type ≠ .era := by rw [hty]; simp
    have hlen : (g.data np.1).ports.length = 3 := (har _ hmem).2.1 hty
    rcases List.mem_append.mp hcp with h | h
    · split at h
      · rw [List.mem_singleton] at h
        subst h
        exact pre_of_child hwf har hmem (by omega) hne
      · cases h
    · rw [List.mem_singleton] at h
      subst h
      exact pre_of_child hwf har hmem (by omega) hne
  · split at hcp
    · rename_i hc
      simp only [Bool.and_eq_true, beq_iff_eq] at hc
      have hty : (g.data np.1).type = .app := hc.1
      have hne : (g.data np.1).type ≠ .era := by rw [hty]; simp
      have hlen : (g.data np.1).ports.length = 3 := (har _ hmem).2.2.1 hty
      rcases List.mem_cons.mp hcp with h | h
      · subst h
        exact pre_of_child hwf har hmem (by omega) hne
      · rw [List.mem_singleton] at h
        subst h
        exact pre_of_child hwf har hmem (by omega) hne
    · split at hcp
      · rename_i hc
        simp only [Bool.and_eq_true, beq_iff_eq] at hc
        have hty : (g.data np.1).type = .repIn := hc.1
        have hne : (g.data np.1).type ≠ .era := by rw [hty]; simp
        have hlen : 0 < (g.data np.1).ports.length :=
          (har _ hmem).2.2.2.2 (by rw [hty]; rfl)
        rw [List.mem_singleton] at hcp
        subst hcp
        exact pre_of_child hwf har hmem hlen hne
      · split at hcp
        · rename_i hc
          simp only [Bool.and_eq_true, beq_iff_eq] at hc
          have hty : (g.data np.1).type = .repOut := hc.1
          have hne : (g.data np.1).type ≠ .era := by rw [hty]; simp
          have hlen : 0 < (g.data np.1).ports.length :=
            (har _ hmem).2.2.2.2 (by rw [hty]; rfl)
          obtain ⟨i, hi, rfl⟩ := List.mem_map.mp hcp
          rw [List.mem_range'] at hi
          obtain ⟨j, hj, rfl⟩ := hi
          exact pre_of_child hwf har hmem (by omega) hne
        · cases hcp

/-- All child ports of the second traversal satisfy `Pre`. -/
lemma childPorts2_pre {g : Graph} (hwf : Wf g) (har : arityOk g) {np : Port}
    (hnp : Pre g np) : ∀ cp ∈ childPorts2 g np, Pre g cp := by
  obtain ⟨hmem, hrange, _⟩ := hnp
  intro cp hcp
  unfold childPorts2 at hcp
  dsimp only at hcp
  split at hcp
  · rename_i hc
    simp only [Bool.and_eq_true, beq_iff_eq] at hc
    have hty : (g.data np.1).type = .abs := hc.1
    have hne : (g.data np.1).type ≠ .era := by rw [hty]; simp
    have hlen : (g.data np.1).ports.length = 3 := (har _ hmem).2.1 hty
    rcases List.mem_append.mp hcp with h | h
    · split at h
      · rw [List.mem_singleton] at h
        subst h
        exact pre_of_child hwf har hmem (by omega) hne
      · cases h
    · rw [List.mem_singleton] at h
      subst h
      exact pre_of_child hwf har hmem (by omega) hne
  · split at hcp
    · rename_i hc
      simp only [Bool.and_eq_true, beq_iff_eq] at hc
      have hty : (g.data np.1).type = .app := hc.1
      have hne : (g.data np.1).type ≠ .era := by rw [hty]; simp
      have hlen : (g.data np.1).ports.length = 3 := (har _ hmem).2.2.1 hty
      rw [List.mem_singleton] at hcp
      subst hcp
      exact pre_of_child hwf har hmem (by omega) hne
    · split at hcp
      · rename_i hc
        simp only [Bool.and_eq_true, beq_iff_eq] at hc
        have hty : (g.data np.1).type = .repIn := hc.1
        have hne : (g.data np.1).type ≠ .era := by rw [hty]; simp
        have hlen : 0 < (g.data np.1).ports.length :=
          (har _ hmem).2.2.2.2 (by rw [hty]; rfl)
        rw [List.mem_singleton] at hcp
        subst hcp
        exact pre_of_child hwf har hmem hlen hne
      · cases hcp

/-- `travMarkFA` only captures a pair with a replicator endpoint. -/
lemma faOk_travMarkFA {g : Graph} {st : TravState} {np : Port} (h : faOk g st) :
    faOk g (travMarkFA g st np) := by
  unfold travMarkFA
  split
  · rename_i hc
    simp only [Bool.and_eq_true, beq_iff_eq] at hc
    have hrep : isRepType (g.data np.1).type = true := hc.1.1.2
    split
    · rename_i r hfind
      unfold getRedexFind at hfind
      have hpair := List.find?_some hfind
      simp only [pairEq, Bool.or_eq_true, Bool.and_eq_true, beq_iff_eq] at hpair
      intro ab hab
      have hab2 : ab = (r.a, r.b) := ((Option.some.injEq _ _).mp hab).symm
      subst hab2
      rcases hpair with ⟨h1, _⟩ | ⟨_, h2⟩
      · exact Or.inl (by rw [show ((r.a, r.b) : Nat × Nat).1 = r.a from rfl, h1]; exact hrep)
      · exact Or.inr (by rw [show ((r.a, r.b) : Nat × Nat).2 = r.b from rfl, h2]; exact hrep)
    · exact h
  · exact h

lemma seqTrav_inv (g : Graph) (rec : TravState → Port → Bool × TravState)
    (hrec : ∀ st np, Pre g np → EEfree g st.redexes → faOk g st →
      EEfree g (rec st np).2.redexes ∧ faOk g (rec st np).2) :
    ∀ (ps : List Port) (st : TravState), (∀ p ∈ ps, Pre g p) →
      EEfree g st.redexes → faOk g st →
      EEfree g (seqTrav rec st ps).2.redexes ∧ faOk g (seqTrav rec st ps).2 := by
  intro ps
  induction ps with
  | nil => intro st _ h1 h2; exact ⟨h1, h2⟩
  | cons p rest ih =>
    intro st hpre h1 h2
    rw [seqTrav]
    split
    · exact hrec st p (hpre p (List.mem_cons_self _ _)) h1 h2
    · obtain ⟨h1a, h2a⟩ := hrec st p (hpre p (List.mem_cons_self _ _)) h1 h2
      exact ih _ (fun q hq => hpre q (List.mem_cons_of_mem _ hq)) h1a h2a

lemma traverseStep_inv (g : Graph) (hwf : Wf g) (har : arityOk g)
    (rec : TravState → Port → Bool × TravState)
    (hrec : ∀ st np, Pre g np → EEfree g st.redexes → faOk g st →
      EEfree g (rec st np).2.redexes ∧ faOk g (rec st np).2)
    (st : TravState) (np : Port) (hpre : Pre g np)
    (h1 : EEfree g st.redexes) (h2 : faOk g st) :
    EEfree g (traverseStep g rec st np).2.redexes ∧ faOk g (traverseStep g rec st np).2 := by
  unfold traverseStep
  dsimp only
  split
  · constructor
    · apply EEfree_markOptimal h1
      by_cases he : (g.data np.1).type = .era
      · exact Or.inr (hpre.2.2 he)
      · exact Or.inl he
    · exact h2
  · split
    · rename_i hc
      simp only [Bool.and_eq_true] at hc
      constructor
      · apply EEfree_markOptimal h1
        exact Or.inl (repType_ne_era hc.1.1)
      · exact h2
    · have h1a : EEfree g (travMarkFA g st np).redexes := by
        rw [travMarkFA_redexes]
        exact h1
      have h2a := @faOk_travMarkFA g _ np h2
      split
      · exact ⟨h1a, h2a⟩
      · exact seqTrav_inv g rec hrec (childPorts g np) _
          (childPorts_pre hwf har hpre) h1a h2a

/-- Along `Pre`-ports the first traversal never flags an eraser-eraser
redex and only captures replicator aux-fan pairs. -/
lemma traverse_inv (g : Graph) (hwf : Wf g) (har : arityOk g) :
    ∀ (fuel : Nat) (st : TravState) (np : Port), Pre g np →
      EEfree g st.redexes → faOk g st →
      EEfree g (traverse g fuel st np).2.redexes ∧ faOk g (traverse g fuel st np).2 := by
  intro fuel
  induction fuel with
  | zero => intro st np _ h1 h2; exact ⟨h1, h2⟩
  | succ fuel ih =>
    intro st np hpre h1 h2
    rw [traverse]
    exact traverseStep_inv g hwf har (traverse g fuel) ih st np hpre h1 h2

lemma traverse2Step_inv (g : Graph) (hwf : Wf g) (har : arityOk g)
    (rec : Trav2State → Port → Trav2State)
    (hrec : ∀ st np, Pre g np → EEfree g st.rs → EEfree g (rec st np).rs)
    (st : Trav2State) (np : Port) (hpre : Pre g np) (h1 : EEfree g st.rs) :
    EEfree g (traverse2Step g rec st np).rs := by
  have hfold : ∀ (ps : List Port) (st1 : Trav2State), (∀ p ∈ ps, Pre g p) →
      EEfree g st1.rs → EEfree g (ps.foldl rec st1).rs := by
    intro ps
    induction ps with
    | nil => intro st1 _ hh; exact hh
    | cons p rest ih =>
      intro st1 hp hh
      exact ih _ (fun q hq => hp q (List.mem_cons_of_mem _ hq))
        (hrec st1 p (hp p (List.mem_cons_self _ _)) hh)
  unfold traverse2Step
  dsimp only
  have key : ∀ st1 : Trav2State, EEfree g st1.rs →
      EEfree g ((if st1.visited.contains np.1 then st1
        else (childPorts2 g np).foldl rec { st1 with visited := np.1 :: st1.visited }).rs) := by
    intro st1 hh
    split
    · exact hh
    · exact hfold (childPorts2 g np) _ (childPorts2_pre hwf har hpre) hh
  refine key _ ?_
  split
  · apply EEfree_markOptimal h1
    by_cases he : (g.data np.1).type = .era
    · exact Or.inr (hpre.2.2 he)
    · exact Or.inl he
  · exact h1

/-- Along `Pre`-ports the second traversal never flags an eraser-eraser
redex. -/
lemma traverse2_inv (g : Graph) (hwf : Wf g) (har : arityOk g) :
    ∀ (fuel : Nat) (st : Trav2State) (np : Port), Pre g np → EEfree g st.rs →
      EEfree g (traverse2 g fuel st np).rs := by
  intro fuel
  induction fuel with
  | zero => intro st np _ h1; exact h1
  | succ fuel ih =>
    intro st np hpre h1
    rw [traverse2]
    exact traverse2Step_inv g hwf har (traverse2 g fuel) ih st np hpre h1

lemma EEfree_sortOptimalFirst {g : Graph} {rs : List Redex} (h : EEfree g rs) :
    EEfree g (sortOptimalFirst rs) :=
  fun r hr => h r (mem_sortOptimalFirst hr)

/-- The root entry port satisfies `Pre`. -/
lemma pre_root {g : Graph} (hwf : Wf g) (har : arityOk g) {rootNode : Nat}
    (hfind : g.nodes.find? (fun m => (g.data m).type == .root) = some rootNode) :
    Pre g (getP g rootNode 0) := by
  have hmem : rootNode ∈ g.nodes := List.mem_of_find?_eq_some hfind
  have hty : (g.data rootNode).type = .root := by
    have := List.find?_some hfind
    simpa using this
  have hlen : (g.data rootNode).ports.length = 1 := (har _ hmem).2.2.2.1 hty
  exact pre_of_child hwf har hmem (by omega) (by rw [hty]; simp)

/-- C9 (amended): in the non-linear disciplines the scanner classifies
every eraser-eraser active pair as NON-optimal, not optimal.  The scan
phase creates every redex with `optimal: false`; the first root traversal
only flips a pair reached at a principal port, and by reciprocity an
eraser is only ever entered through its single port, so its partner is
the non-eraser node the traversal came from; the `firstAuxFanReplication`
fallback always names a replicator-application pair; and the second
traversal marks under the same principal-pair guard. -/
theorem era_era_not_optimal :
    ∀ (g : Graph) (sys : SystemType) (rl : Bool) (rs : List Redex),
      sys ≠ .linear → Wf g → arityOk g →
      getRedexes g sys rl = some rs →
      ∀ r ∈ rs, (g.data r.a).type = .era → (g.data r.b).type = .era →
        r.optimal = false := by
  intro g sys rl rs hsys hwf har h r hr ha hb
  unfold getRedexes at h
  rw [if_neg (by simp only [beq_iff_eq]; exact fun hc => hsys (by simp_all))] at h
  cases hfind : g.nodes.find? (fun m => (g.data m).type == .root) with
  | none =>
    rw [hfind] at h
    cases h
  | some rootNode =>
    rw [hfind] at h
    dsimp only at h
    have hrs := (Option.some.injEq _ _).mp h
    subst hrs
    have hpre := pre_root hwf har hfind
    have hscan : EEfree g (g.nodes.foldl (processNodeFull g sys rl) {}).redexes := by
      intro r0 hr0 _ _
      exact (mem_scanFull hr0).1
    obtain ⟨h1, h2⟩ := traverse_inv g hwf har (g.nodes.length + 2)
      { visited := [], firstAuxFan := none,
        redexes := (g.nodes.foldl (processNodeFull g sys rl) {}).redexes }
      (getP g rootNode 0) hpre hscan (by intro ab hab; cases hab)
    set trv := traverse g (g.nodes.length + 2)
      { visited := [], firstAuxFan := none,
        redexes := (g.nodes.foldl (processNodeFull g sys rl) {}).redexes }
      (getP g rootNode 0) with htrv
    have hrs1 : EEfree g (if trv.1 == false then
        match trv.2.firstAuxFan with
        | some ab => markOptimal trv.2.redexes ab.1 ab.2
        | none => trv.2.redexes
      else trv.2.redexes) := by
      split
      · cases hfa : trv.2.firstAuxFan with
        | some ab =>
          apply EEfree_markOptimal h1
          rcases h2 ab hfa with hx | hx
          · exact Or.inl (repType_ne_era hx)
          · exact Or.inr (repType_ne_era hx)
        | none => exact h1
      · exact h1
    exact traverse2_inv g hwf har (g.nodes.length + 2)
      { visited := [],
        rs := sortOptimalFirst (if trv.1 == false then
          match trv.2.firstAuxFan with
          | some ab => markOptimal trv.2.redexes ab.1 ab.2
          | none => trv.2.redexes
        else trv.2.redexes) }
      (getP g rootNode 0) hpre (EEfree_sortOptimalFirst hrs1) r hr ha hb

/-- Witness for C9 (amended) on `gEE`, whose eraser-eraser island yields
a non-optimal redex. -/
theorem era_era_not_optimal_witness :
    SystemType.full ≠ .linear ∧ Wf gEE ∧ arityOk gEE ∧
    ∃ rs, getRedexes gEE .full false = some rs ∧
      ∀ r ∈ rs, (gEE.data r.a).type = .era → (gEE.data r.b).type = .era →
        r.optimal = false := by
  have hsome : (getRedexes gEE .full false).isSome = true := by decide
  obtain ⟨rs, hrs⟩ := Option.isSome_iff_exists.mp hsome
  exact ⟨by decide, by decide, by decide, rs, hrs,
    era_era_not_optimal gEE .full false rs (by decide) (by decide) (by decide) hrs⟩

/-! ## C1: wire reciprocity.  Generic machinery for link surgeries. -/

lemma length_link_general (g : Graph) (a b : Port) (m : Nat) :
    ((link g a b).data m).ports.length =
      (if m = b.1 then
        max (if m = a.1 then max (g.data m).ports.length (a.2 + 1)
             else (g.data m).ports.length) (b.2 + 1)
       else if m = a.1 then max (g.data m).ports.length (a.2 + 1)
       else (g.data m).ports.length) := by
  unfold link
  by_cases h1 : m = b.1 <;> by_cases h2 : m = a.1 <;>
    simp_all [data_setData, length_setPort]

/-- Growing link sequences never shrink a ports array. -/
lemma length_linkList_le (g : Graph) (ps : List (Port × Port)) (m : Nat) :
    (g.data m).ports.length ≤ ((linkList g ps).data m).ports.length := by
  induction ps generalizing g with
  | nil => exact Nat.le_refl _
  | cons pq rest ih =>
    obtain ⟨a, b⟩ := pq
    calc (g.data m).ports.length ≤ ((link g a b).data m).ports.length := by
          rw [length_link_general]
          split
          · split <;> omega
          · split <;> omega
      _ ≤ ((linkList (link g a b) rest).data m).ports.length := ih (link g a b)

/-- The link pairs of `reduceErase`: eraser `e0 + position` against the
far end of each auxiliary port. -/
def erasePairs (g : Graph) (node e0 : Nat) : List Nat → List (Port × Port)
  | [] => []
  | i :: rest => (((e0, 0) : Port), getP g node i) :: erasePairs g node (e0 + 1) rest

lemma foldl_len_skip (m : Nat) : ∀ (L : List Port) (init : Nat),
    (∀ x ∈ L, x.1 ≠ m) →
    L.foldl (fun acc x => if x.1 = m then max acc (x.2 + 1) else acc) init = init := by
  intro L
  induction L with
  | nil => intro init _; rfl
  | cons a rest ih =>
    intro init h
    show rest.foldl _ (if a.1 = m then max init (a.2 + 1) else init) = init
    rw [if_neg (h a (List.mem_cons_self _ _))]
    exact ih init (fun x hx => h x (List.mem_cons_of_mem _ hx))

lemma foldl_len_mono (m : Nat) : ∀ (L : List Port) (i1 i2 : Nat), i1 ≤ i2 →
    L.foldl (fun acc x => if x.1 = m then max acc (x.2 + 1) else acc) i1 ≤
    L.foldl (fun acc x => if x.1 = m then max acc (x.2 + 1) else acc) i2 := by
  intro L
  induction L with
  | nil => intro i1 i2 h; exact h
  | cons a rest ih =>
    intro i1 i2 h
    refine ih _ _ ?_
    dsimp only
    split
    · omega
    · omega

/-- Looking up a far-end slot in the eraser pair list. -/
lemma lookupLoc_erasePairs_far {g : Graph} {node : Nat} :
    ∀ (is : List Nat) (e0 k : Nat), k < is.length →
    (∀ i ∈ is, (getP g node i).1 < e0) →
    (∀ a ∈ is, ∀ b ∈ is, getP g node a = getP g node b → a = b) →
    is.Nodup →
    lookupLoc (getP g node (is.getD k 0)) (erasePairs g node e0 is) =
      some ((e0 + k, 0) : Port) := by
  intro is
  induction is with
  | nil => intro e0 k hk _ _ _; cases hk
  | cons i rest ih =>
    intro e0 k hk hlt hinj hnd
    rcases hnd with _ | ⟨hni, hndr⟩
    show lookupLoc _ ((((e0, 0) : Port), getP g node i) :: erasePairs g node (e0 + 1) rest) = _
    unfold lookupLoc
    cases k with
    | zero =>
      rw [if_neg (by
          intro hc
          have h1 := hlt i (List.mem_cons_self _ _)
          have := congrArg Prod.fst hc
          simp only [List.getD_cons_zero] at this
          omega),
        if_pos (by rw [List.getD_cons_zero])]
      rw [Nat.add_zero]
    | succ k =>
      have h2 : k < rest.length := by
        have : k + 1 < rest.length + 1 := hk
        omega
      have hmem : rest.getD k 0 ∈ rest := by
        rw [List.getD_eq_getElem?_getD, List.getElem?_eq_getElem h2]
        exact List.getElem_mem h2
      rw [List.getD_cons_succ]
      rw [if_neg (by
          intro hc
          have h1 := hlt (rest.getD k 0) (List.mem_cons_of_mem _ hmem)
          have := congrArg Prod.fst hc
          simp only at this
          omega),
        if_neg (by
          intro hc
          have := hinj (rest.getD k 0) (List.mem_cons_of_mem _ hmem) i
            (List.mem_cons_self _ _) hc
          exact hni (rest.getD k 0) hmem this.symm)]
      rw [show e0 + (k + 1) = (e0 + 1) + k from by omega]
      exact ih (e0 + 1) k h2
        (fun j hj => by have := hlt j (List.mem_cons_of_mem _ hj); omega)
        (fun a ha b hb => hinj a (List.mem_cons_of_mem _ ha) b (List.mem_cons_of_mem _ hb))
        hndr

end Deltanets
